import Mathlib

/-!
# Verification of the cobra_db aggregation/consensus engine

Shallow embedding of the pure core of `cobra_db` (mammoai/cobra-db):

* `cobra_db.utils.intersect_dicts`, `intersect_dicts_allow_empty_minority`
* `cobra_db.scripts.stage_2_group_studies.get_tag`, `set_union`
* `cobra_db.scripts.utils.batcher`
* `cobra_db.filesystem.get_patient_path`, `get_study_path`, `get_series_path`,
  `get_instance_path`
* `cobra_db.mongo_dao.StudyDao.insert_one`, `PatientDao.insert_one`
* `cobra_db.scripts.stage_2_group_series.process_series_batch`,
  `stage_2_group_patients.process_patient_batch`

Python dictionaries are modelled as association lists in insertion order
(Python dicts preserve insertion order and have no duplicate keys; theorems
that need key uniqueness take it as an explicit hypothesis).
-/

namespace CobraDb

/-- A Python value as it occurs in the flat tag records handled by
`cobra_db.utils`: integers, strings, or `None`-free composites are enough for
the consensus functions, whose only observation of a value is `str(v)`.
`None` itself is represented at the record level (`Option PyVal`), mirroring
`d.get(k, None) is None`, which conflates a missing key with a `None` value. -/
inductive PyVal : Type
  | pyInt (n : Int)
  | pyStr (s : String)
  deriving DecidableEq, Repr

/-- Python `str(v)` for the values of `PyVal`. `str` of an `int` is its
decimal representation, `str` of a `str` is the string itself. -/
def pyStrOf : PyVal → String
  | .pyInt n => toString n
  | .pyStr s => s

/-- Python `str(v)` where `v` may be `None` (`str(None) = "None"`).
Needed because `intersect_dicts` stringifies the first record's value
before checking that the other records are not-`None`. -/
def pyStrOfOpt : Option PyVal → String
  | none => "None"
  | some v => pyStrOf v

/-- A flat Python dict in insertion order; a value of `none` models an entry
whose value is the Python object `None`. -/
abbrev Record : Type := List (String × Option PyVal)

/-- `d.get(k, None)`: `none` when the key is absent *or* mapped to `None`
(exactly the two cases the source code treats identically). -/
def pyGet (d : Record) (k : String) : Option PyVal :=
  match d.find? (fun p => p.1 = k) with
  | none => none
  | some p => p.2

/-- The keys of a record, in insertion order (`d.keys()`). -/
def recKeys (d : Record) : List String := d.map Prod.fst

/-- `cobra_db.utils.intersect_dicts` (utils.py lines 100-121): iterate over the
first dict's items; keep `(k, v)` iff every later dict has `k` mapped to a
non-`None` value whose `str` equals `str(v)`. The empty input (which would
raise `IndexError` in Python on `dicts[0]`) is mapped to the empty record and
never used by the theorems below. -/
def intersect_dicts (dicts : List Record) : Record :=
  match dicts with
  | [] => ([] : Record)
  | d0 :: rest =>
    d0.filter (fun p =>
      rest.all (fun d =>
        match pyGet d p.1 with
        | none => false
        | some dv => pyStrOf dv = pyStrOfOpt p.2))

/-- The list `[d[k] for d in dicts if d.get(k, None) is not None]` of present
(non-`None`) values of key `k`, in input order. -/
def presentValues (dicts : List Record) (k : String) : List PyVal :=
  dicts.filterMap (fun d => pyGet d k)

/-- Lexicographic less-or-equal on char lists by code point, Python's
ordering on `str`. Written as an executable `Bool` so that it reduces
inside the kernel. -/
def charListLe : List Char → List Char → Bool
  | [], _ => true
  | _ :: _, [] => false
  | a :: as, b :: bs =>
    if a.toNat < b.toNat then true
    else if b.toNat < a.toNat then false
    else charListLe as bs

/-- `a <= b` for Python strings: lexicographic by code point. -/
def strLe (a b : String) : Bool := charListLe a.data b.data

/-- Python's `sorted` on a list of strings (ascending by code points), as an
insertion sort so that it reduces. -/
def sortStrings (l : List String) : List String :=
  l.insertionSort (fun a b => strLe a b = true)

/-- `sorted(all_keys)` where `all_keys` is the set of keys occurring in any
dict: deduplicated keys in ascending string order. -/
def allKeysSorted (dicts : List Record) : List String :=
  sortStrings ((dicts.flatMap recKeys).dedup)

/-- The loop body of `intersect_dicts_allow_empty_minority` for one key:
collect the present non-`None` values; drop the key when fewer than
`n // 2 + 1` records have it or when two present values differ as strings;
otherwise keep the first present value. -/
def majorityKeep (dicts : List Record) (k : String) :
    Option (String × Option PyVal) :=
  match presentValues dicts k with
  | [] => none
  | v0 :: vs =>
    if (v0 :: vs).length < dicts.length / 2 + 1 then none
    else if vs.all (fun v => pyStrOf v0 = pyStrOf v) then some (k, some v0)
    else none

/-- `cobra_db.utils.intersect_dicts_allow_empty_minority` (utils.py lines
124-156). -/
def intersect_dicts_allow_empty_minority (dicts : List Record) : Record :=
  (allKeysSorted dicts).filterMap (majorityKeep dicts)

/-- `ans[k]` of a produced record: the value stored at the first entry with
key `k`, if any (Python dicts have unique keys). -/
def recFind (r : Record) (k : String) : Option (Option PyVal) :=
  (r.find? (fun p => p.1 = k)).map Prod.snd

/-! ## stage_2_group_studies.get_tag / set_union

A DICOM tag record (`dicom_tags` in Mongo) maps a keyword to an attribute
dict that may or may not carry a `"Value"` entry; the value is either a
scalar or a list. Python `set`s of strings are modelled canonically as
sorted duplicate-free lists, together with an explicit enumeration function
standing for CPython's unspecified, hash-dependent iteration order used by
`list(values)`. -/

/-- The `"Value"` payload of one DICOM attribute: a scalar or a list. -/
inductive DVal : Type
  | single (s : String)
  | multi (l : List String)
  deriving DecidableEq, Repr

/-- A `dicom_tags` record: keyword ↦ attribute dict; `none` models an
attribute dict without a `"Value"` key (so `d[keyword]["Value"]` raises
`KeyError`). -/
abbrev TagRec : Type := List (String × Option DVal)

/-- Insert into a canonical (sorted, duplicate-free) string set. -/
def pySetInsert (x : String) (s : List String) : List String :=
  if x ∈ s then s else List.orderedInsert (fun a b => strLe a b = true) x s

/-- Canonical string set built from a list (Python `set(l)`). -/
def pySetOfList (l : List String) : List String :=
  l.foldl (fun acc x => pySetInsert x acc) []

/-- Union of canonical string sets (Python `s.union(t)`). -/
def pySetUnion (s t : List String) : List String :=
  t.foldl (fun acc x => pySetInsert x acc) s

/-- `stage_2_group_studies.get_tag(d, keyword)` (lines 39-47): the set of
values of `keyword` in `d`, of `{v}` for a scalar `v`, and the empty set
when the keyword or its `"Value"` entry is missing (`KeyError` branch). -/
def get_tag (d : TagRec) (keyword : String) : List String :=
  match d.find? (fun p => p.1 = keyword) with
  | none => []
  | some (_, none) => []
  | some (_, some (.single s)) => pySetOfList [s]
  | some (_, some (.multi l)) => pySetOfList l

/-- The set `values` accumulated by `set_union` (lines 50-56) before the
final `list(values)` conversion. -/
def set_union_vals (dicom_tags : List TagRec) (keyword : String) : List String :=
  dicom_tags.foldl (fun values d => pySetUnion values (get_tag d keyword)) []

/-- `stage_2_group_studies.set_union(dicom_tags, keyword)`: `None` when the
accumulated set is empty, otherwise `list(values)`. CPython enumerates a
`set` in an unspecified, hash-seed-dependent order, so the conversion is
modelled by an explicit enumeration function `enum`; any `enum` that returns
a permutation of the set is a faithful execution of `list(values)`. -/
def set_union (enum : List String → List String) (dicom_tags : List TagRec)
    (keyword : String) : Option (List String) :=
  let values := set_union_vals dicom_tags keyword
  if values.length = 0 then none else some (enum values)

/-! ## scripts.utils.batcher -/

/-- The loop of `batcher` (scripts/utils.py lines 4-21): `batch` is the
pending list, `counter` the number of items consumed so far; a batch is
yielded whenever `counter % batch_size == 0`, and a non-empty residue is
yielded at the end. -/
def batcherGo (bs : Nat) : List α → List α → Nat → List (List α)
  | [], batch, _ => if batch.length > 0 then [batch] else []
  | i :: rest, batch, counter =>
    if (counter + 1) % bs == 0 then
      (batch ++ [i]) :: batcherGo bs rest [] (counter + 1)
    else batcherGo bs rest (batch ++ [i]) (counter + 1)

/-- `scripts.utils.batcher(iterable, batch_size)` on a finite sequence.
(Python raises `ZeroDivisionError` for `batch_size = 0`; the theorems only
concern `batch_size ≥ 1`.) -/
def batcher (l : List α) (batch_size : Nat) : List (List α) :=
  batcherGo batch_size l [] 0

/-! ## filesystem.py: content-addressed paths

`get_patient_path` validates its argument with `int(patient_anon_id, 16)`,
so Python's base-16 integer parsing is modelled faithfully: surrounding
whitespace, an optional sign, an optional `0x`/`0X` prefix and single
underscores between digits are accepted; anything else raises `ValueError`. -/

/-- The ASCII whitespace characters stripped by Python's `int(str, base)`. -/
def isPyWhitespace (c : Char) : Bool :=
  c = ' ' || c = '\t' || c = '\n' || c = '\r' || c = '\x0b' || c = '\x0c'

/-- Value of a hexadecimal digit character, if it is one. -/
def hexVal? (c : Char) : Option Nat :=
  if 48 ≤ c.toNat ∧ c.toNat ≤ 57 then some (c.toNat - 48)
  else if 97 ≤ c.toNat ∧ c.toNat ≤ 102 then some (c.toNat - 87)
  else if 65 ≤ c.toNat ∧ c.toNat ≤ 70 then some (c.toNat - 55)
  else none

/-- Remaining hex digits after the first one: a single underscore is allowed
between digits (Python numeric-literal rule used by `int(str, 16)`), so an
underscore must be followed by a digit, and a trailing or doubled underscore
fails. -/
def hexDigitsGo (acc : Nat) : List Char → Option Nat
  | [] => some acc
  | c :: rest =>
    if c = '_' then
      match rest with
      | [] => none
      | c2 :: rest2 =>
        match hexVal? c2 with
        | some d => hexDigitsGo (acc * 16 + d) rest2
        | none => none
    else
      match hexVal? c with
      | some d => hexDigitsGo (acc * 16 + d) rest
      | none => none

/-- A non-empty run of hex digits with optional internal underscores. -/
def parseHexDigits : List Char → Option Nat
  | [] => none
  | c :: rest =>
    match hexVal? c with
    | some d => hexDigitsGo d rest
    | none => none

/-- Digits after an `0x`/`0X` prefix; one underscore may follow the prefix
(`int("0x_ff", 16)` is accepted). -/
def parseHexAfterPrefix : List Char → Option Nat
  | [] => none
  | c :: rest => if c = '_' then parseHexDigits rest else parseHexDigits (c :: rest)

/-- The unsigned part of `int(str, 16)`: optional `0x`/`0X` prefix, then
digits. -/
def parseHexBody : List Char → Option Nat
  | [] => none
  | [c] => parseHexDigits [c]
  | c1 :: c2 :: rest =>
    if c1 = '0' ∧ (c2 = 'x' ∨ c2 = 'X') then parseHexAfterPrefix rest
    else parseHexDigits (c1 :: c2 :: rest)

/-- The argument of `int(s, 16)` with surrounding whitespace stripped. -/
def pyStrip (s : String) : List Char :=
  ((s.data.dropWhile isPyWhitespace).reverse.dropWhile isPyWhitespace).reverse

/-- Python `int(s, 16)`: `none` models `ValueError`. An optional sign may
precede the body. -/
def pyIntHex16 (s : String) : Option Int :=
  match pyStrip s with
  | [] => none
  | c :: rest =>
    if c = '+' then (parseHexBody rest).map Int.ofNat
    else if c = '-' then (parseHexBody rest).map (fun n => -(Int.ofNat n))
    else (parseHexBody (c :: rest)).map Int.ofNat

/-- The exceptions the path functions can raise. -/
inductive PathError : Type
  | assertionError (msg : String)
  | valueError
  | attributeError
  deriving DecidableEq, Repr

instance {ε α : Type _} [DecidableEq ε] [DecidableEq α] :
    DecidableEq (Except ε α) := fun x y =>
  match x, y with
  | .ok a, .ok b =>
    if h : a = b then .isTrue (by rw [h]) else .isFalse (by simp [h])
  | .error a, .error b =>
    if h : a = b then .isTrue (by rw [h]) else .isFalse (by simp [h])
  | .ok _, .error _ => .isFalse (by simp)
  | .error _, .ok _ => .isFalse (by simp)

/-- `os.path.join(a, b)` for POSIX paths: an absolute second argument
replaces the first, otherwise the parts are glued with a single `/`. -/
def ospjoin (a b : String) : String :=
  if b.data.head? = some '/' then b
  else if a.data = [] ∨ a.data.getLast? = some '/' then a ++ b
  else a ++ "/" ++ b

/-- Python slice `s[a:b]` for `0 ≤ a ≤ b`. -/
def strSlice (s : String) (a b : Nat) : String := ⟨(s.data.drop a).take (b - a)⟩

/-- `filesystem.get_patient_path` (lines 14-26): `None` maps to the constant
`"UNK_PatientID"`; otherwise the length must be 64 (`AssertionError`),
`int(p, 16)` must parse (`ValueError`) and be truthy, i.e. nonzero
(`AssertionError`), and the result is `p[0:3]/p[3:6]/p[6:24]`. -/
def get_patient_path : Option String → Except PathError String
  | none => .ok "UNK_PatientID"
  | some p =>
    if p.length = 64 then
      match pyIntHex16 p with
      | none => .error .valueError
      | some v =>
        if v = 0 then .error (.assertionError "Non hex values in string")
        else .ok (ospjoin (ospjoin (strSlice p 0 3) (strSlice p 3 6)) (strSlice p 6 24))
    else .error (.assertionError "Length of patient hash is incorrect")

/-- A Python `datetime` restricted to the fields that reach any derived path
(`strftime` with `%Y%d%m` and `%H%M%S` ignores microseconds). -/
structure PyDateTime where
  year : Nat
  month : Nat
  day : Nat
  hour : Nat
  minute : Nat
  second : Nat
  deriving DecidableEq, Repr

/-- Gregorian leap year, as `datetime` uses. -/
def isLeap (y : Nat) : Bool :=
  (y % 4 = 0 && y % 100 ≠ 0) || y % 400 = 0

/-- Days in a month of a given year. -/
def daysInMonth (y m : Nat) : Nat :=
  if m = 2 then (if isLeap y then 29 else 28)
  else if m = 4 ∨ m = 6 ∨ m = 9 ∨ m = 11 then 30
  else 31

/-- The range checks `datetime` performs on a parsed date-time. -/
def validDateTime (dt : PyDateTime) : Bool :=
  1 ≤ dt.year && dt.year ≤ 9999 && 1 ≤ dt.month && dt.month ≤ 12 &&
    1 ≤ dt.day && dt.day ≤ daysInMonth dt.year dt.month &&
    dt.hour ≤ 23 && dt.minute ≤ 59 && dt.second ≤ 59

/-- Decimal digit value of a character, if it is one. -/
def digitVal? (c : Char) : Option Nat :=
  if 48 ≤ c.toNat ∧ c.toNat ≤ 57 then some (c.toNat - 48) else none

/-- Reads a fixed-width run of decimal digits as a number. -/
def digitsToNat? (l : List Char) : Option Nat :=
  l.foldl (fun acc c => acc.bind fun a => (digitVal? c).map fun d => a * 10 + d)
    (some 0)

/-- `strptime`'s `%Y%m%d` on a DICOM `DA` value, restricted to the canonical
fixed-width form (8 digits: 4-digit year, 2-digit month, 2-digit day); any
other shape is treated as a parse failure. -/
def parseDA (s : String) : Option (Nat × Nat × Nat) :=
  if s.length = 8 then
    match digitsToNat? (s.data.take 4), digitsToNat? ((s.data.drop 4).take 2),
        digitsToNat? (s.data.drop 6) with
    | some y, some m, some d => some (y, m, d)
    | _, _, _ => none
  else none

/-- `strptime`'s `%H%M%S` (optionally `.%f`, chosen by `"." in TM`) on a
DICOM `TM` value, restricted to the canonical fixed-width form: 6 digits,
optionally followed by `.` and 1 to 6 fraction digits. The fraction is
validated and discarded (it never reaches a derived path). -/
def parseTM (s : String) : Option (Nat × Nat × Nat) :=
  let parseHMS : List Char → Option (Nat × Nat × Nat) := fun l =>
    if l.length = 6 then
      match digitsToNat? (l.take 2), digitsToNat? ((l.drop 2).take 2),
          digitsToNat? (l.drop 4) with
      | some h, some mi, some se => some (h, mi, se)
      | _, _, _ => none
    else none
  if s.data.contains '.' then
    match s.data.splitOn '.' with
    | [hms, frac] =>
      if 1 ≤ frac.length ∧ frac.length ≤ 6 ∧ (digitsToNat? frac).isSome then
        parseHMS hms
      else none
    | _ => none
  else parseHMS s.data

/-- `cobra_db.utils.parse_DA_TM_as_datetime` (utils.py lines 66-76): the
all-zero date-time maps to Python `None`; otherwise
`strptime(f"{DA} {TM}", ...)` either yields a datetime or raises
`ValueError` (modelled as `.error`). -/
def parse_DA_TM_as_datetime (DA TM : String) :
    Except PathError (Option PyDateTime) :=
  if DA = "00000000" ∧ TM = "000000" then .ok none
  else
    match parseDA DA, parseTM TM with
    | some (y, m, d), some (h, mi, se) =>
      let dt : PyDateTime := ⟨y, m, d, h, mi, se⟩
      if validDateTime dt then .ok (some dt) else .error .valueError
    | _, _ => .error .valueError

/-- The decimal digit characters. -/
def digitChar10 (d : Nat) : Char :=
  match d with
  | 0 => '0' | 1 => '1' | 2 => '2' | 3 => '3' | 4 => '4'
  | 5 => '5' | 6 => '6' | 7 => '7' | 8 => '8' | _ => '9'

/-- Decimal digits of a number, most significant first (fuel-based so that
it reduces; `fuel ≥ n` suffices since `n / 10` strictly decreases). -/
def natDecAux : Nat → Nat → List Char
  | 0, _ => []
  | fuel + 1, n =>
    if n < 10 then [digitChar10 n]
    else natDecAux fuel (n / 10) ++ [digitChar10 (n % 10)]

/-- Decimal notation of a number, as `strftime` prints numeric fields. -/
def natDec (n : Nat) : String := ⟨natDecAux (n + 1) n⟩

/-- Two-digit zero-padded field, as `strftime` prints `%d %m %H %M %S`. -/
def pad2 (n : Nat) : String := if n < 10 then "0" ++ natDec n else natDec n

/-- `strftime("%Y%d%m")`: year, then zero-padded day, then zero-padded month
(day and month deliberately swapped, as in the source). `%Y` is printed
unpadded as glibc does; every year reaching it here has 4 digits. -/
def fmt_Ydm (dt : PyDateTime) : String :=
  natDec dt.year ++ pad2 dt.day ++ pad2 dt.month

/-- `strftime("%H%M%S")`. -/
def fmt_HMS (dt : PyDateTime) : String :=
  pad2 dt.hour ++ pad2 dt.minute ++ pad2 dt.second

/-- `re.sub(r"[^a-zA-Z\d]", "-", s)`: every character that is not an ASCII
letter or digit becomes `-`. -/
def sanitizeDescription (s : String) : String :=
  ⟨s.data.map (fun c => if c.isAlphanum then c else '-')⟩

/-- The slice of a pydicom `Dataset` read by the path functions. Each field
holds the string form of the tag value (`parser=str` in
`DicomEntity.optional`), `none` when the tag is absent. -/
structure Dataset where
  StudyDate : Option String := none
  StudyTime : Option String := none
  SeriesDate : Option String := none
  SeriesTime : Option String := none
  SeriesNumber : Option String := none
  Modality : Option String := none
  SeriesDescription : Option String := none
  PatientID : Option String := none
  SOPInstanceUID : Option String := none

/-- `DicomEntity.optional(ds, tag, str, default)` (model.py lines 125-135):
the tag's value unless it is absent or the empty string, else `default`. -/
def opt (v : Option String) (default : String) : String :=
  match v with
  | some s => if s = "" then default else s
  | none => default

/-- `filesystem.get_study_path` (lines 29-36): a missing study date falls
back to `datetime(1900, 1, 1)`. -/
def get_study_path (pid : Option String) (study_date : Option PyDateTime) :
    Except PathError String :=
  let d := study_date.getD ⟨1900, 1, 1, 0, 0, 0⟩
  match get_patient_path pid with
  | .error e => .error e
  | .ok pp => .ok (ospjoin pp ("study_" ++ fmt_Ydm d))

/-- The `series_key` computed by `get_series_path`: the formatted series
time when the series date-time parsed to a value, else the series number,
else `"UNK"`. -/
def seriesKeyOf (series_dt : Option PyDateTime) (seriesNumber : Option String) :
    String :=
  match series_dt with
  | none => opt seriesNumber "UNK"
  | some dt => fmt_HMS dt

/-- `filesystem.get_series_path` (lines 39-61), with the source's evaluation
order: study date-time parse, series date-time parse, then the path build
(which may fail inside `get_patient_path`). `PatientID` is read raw via
`ds.get`, not through `optional`. -/
def get_series_path (ds : Dataset) : Except PathError String :=
  match parse_DA_TM_as_datetime (opt ds.StudyDate "00000000")
      (opt ds.StudyTime "000000") with
  | .error e => .error e
  | .ok study_dt =>
    match parse_DA_TM_as_datetime (opt ds.SeriesDate "00000000")
        (opt ds.SeriesTime "000000") with
    | .error e => .error e
    | .ok series_dt =>
      let series_key := seriesKeyOf series_dt ds.SeriesNumber
      let modality := opt ds.Modality "UNK"
      let description := sanitizeDescription (opt ds.SeriesDescription "UNK")
      match get_study_path ds.PatientID study_dt with
      | .error e => .error e
      | .ok sp =>
        .ok (ospjoin sp ("series_" ++ modality ++ "_" ++ series_key ++ "_"
          ++ description))

/-- `filesystem.get_instance_path` (lines 64-67): `ds.SOPInstanceUID` is a
required attribute (`AttributeError` when absent, read before the series
path is built). -/
def get_instance_path (ds : Dataset) : Except PathError String :=
  match ds.SOPInstanceUID with
  | none => .error .attributeError
  | some key =>
    match get_series_path ds with
    | .error e => .error e
    | .ok sp => .ok (ospjoin sp (key ++ ".dcm"))

/-- The path format stated by the specification, written directly from its
words: `<id[0:3]>/<id[3:6]>/<id[6:24]>/study_<YYYYDDMM>/series_<modality>_
<time-or-number>_<sanitized-description>/<instance-id>.dcm`, with a constant
fallback segment for a `None` patient id, the sentinel date 1900-01-01 for a
missing study date, and the series number or `"UNK"` for a missing series
date-time. -/
def specPatientSeg (pid : Option String) : String :=
  match pid with
  | none => "UNK_PatientID"
  | some p => strSlice p 0 3 ++ "/" ++ strSlice p 3 6 ++ "/" ++ strSlice p 6 24

/-- The `<time-or-number>` component stated by the specification. -/
def specSeriesKey (seriesDT : Option PyDateTime) (seriesNumber : Option String) :
    String :=
  match seriesDT with
  | some dt => fmt_HMS dt
  | none =>
    match seriesNumber with
    | some s => if s = "" then "UNK" else s
    | none => "UNK"

def specInstancePath (pid : Option String) (studyDT seriesDT : Option PyDateTime)
    (seriesNumber : Option String) (modality description instanceUID : String) :
    String :=
  specPatientSeg pid
  ++ "/study_" ++ fmt_Ydm (studyDT.getD ⟨1900, 1, 1, 0, 0, 0⟩)
  ++ "/series_" ++ modality ++ "_" ++ specSeriesKey seriesDT seriesNumber
  ++ "_" ++ sanitizeDescription description
  ++ "/" ++ instanceUID ++ ".dcm"

/-! ## mongo_dao: StudyDao.insert_one / PatientDao.insert_one

A Mongo collection is modelled as the list of its documents plus the id
counter and whether the unique index has been created. `insert_one` on the
driver raises `DuplicateKeyError` exactly when the unique index exists and a
stored document carries the same key; `create_index(unique=True)` fails when
the stored documents already violate uniqueness. -/

/-- Database-level errors: `DuplicateKeyError`, and the `TypeError` Python
would raise if the re-query after a duplicate-key error found nothing
(`find_one(...)["_id"]` on `None`). -/
inductive DbError : Type
  | duplicateKey
  | lookupFailed
  deriving DecidableEq, Repr

/-- A `RadiologicalStudy` document reduced to its identity and grouping key
`(dicom_tags.PatientID.Value, date)`. -/
structure StudyDoc where
  oid : Nat
  patientID : String
  date : String
  deriving DecidableEq, Repr

/-- The `RadiologicalStudy` collection. -/
structure StudyColl where
  docs : List StudyDoc
  nextId : Nat
  hasUniqueIndex : Bool
  deriving DecidableEq, Repr

/-- Is some stored study's grouping key equal to `(pid, date)`? -/
def studyKeyClash (c : StudyColl) (pid date : String) : Bool :=
  c.docs.any (fun d => d.patientID = pid ∧ d.date = date)

/-- Driver `collection.insert_one` for studies. -/
def mongo_insert_study (c : StudyColl) (pid date : String) :
    Except DbError (Nat × StudyColl) :=
  if c.hasUniqueIndex ∧ studyKeyClash c pid date then .error .duplicateKey
  else .ok (c.nextId, ⟨c.docs ++ [⟨c.nextId, pid, date⟩], c.nextId + 1,
    c.hasUniqueIndex⟩)

/-- Driver `collection.find_one` by study grouping key. -/
def study_find_one (c : StudyColl) (pid date : String) : Option StudyDoc :=
  c.docs.find? (fun d => d.patientID = pid ∧ d.date = date)

/-- No two stored studies share a grouping key. -/
def studyNodupKeys : List StudyDoc → Bool
  | [] => true
  | d :: rest =>
    !(rest.any (fun e => e.patientID = d.patientID ∧ e.date = d.date)) &&
      studyNodupKeys rest

/-- `StudyDao._ensure_index_exists`: `create_index(unique=True)` succeeds iff
the stored documents do not already violate uniqueness. -/
def study_ensure_index (c : StudyColl) : Except DbError StudyColl :=
  if c.hasUniqueIndex then .ok c
  else if studyNodupKeys c.docs then .ok ⟨c.docs, c.nextId, true⟩
  else .error .duplicateKey

/-- `StudyDao.insert_one` (mongo_dao.py lines 309-335): attempt the insert;
with `skip_duplicates` a `DuplicateKeyError` is resolved by re-querying the
grouping key and returning the existing `_id`, otherwise it propagates; the
unique index is ensured after either outcome. -/
def StudyDao_insert_one (c : StudyColl) (pid date : String)
    (skip_duplicates : Bool) : Except DbError (Nat × StudyColl) :=
  if skip_duplicates then
    match mongo_insert_study c pid date with
    | .ok (id, c') => (study_ensure_index c').map (fun c'' => (id, c''))
    | .error _ =>
      match study_find_one c pid date with
      | some d => (study_ensure_index c).map (fun c'' => (d.oid, c''))
      | none => .error .lookupFailed
  else
    match mongo_insert_study c pid date with
    | .ok (id, c') => (study_ensure_index c').map (fun c'' => (id, c''))
    | .error e => .error e

/-- A `Patient` document reduced to its identity and grouping key
(`anon_id`). -/
structure PatientDoc where
  oid : Nat
  anon_id : String
  deriving DecidableEq, Repr

/-- The `Patient` collection. -/
structure PatientColl where
  docs : List PatientDoc
  nextId : Nat
  hasUniqueIndex : Bool
  deriving DecidableEq, Repr

/-- Driver `collection.find_one({"anon_id": anon})`. -/
def patient_find_one (c : PatientColl) (anon : String) : Option PatientDoc :=
  c.docs.find? (fun d => d.anon_id = anon)

/-- Driver `collection.insert_one` for patients. -/
def mongo_insert_patient (c : PatientColl) (anon : String) :
    Except DbError (Nat × PatientColl) :=
  if c.hasUniqueIndex ∧ c.docs.any (fun d => d.anon_id = anon) then
    .error .duplicateKey
  else .ok (c.nextId, ⟨c.docs ++ [⟨c.nextId, anon⟩], c.nextId + 1,
    c.hasUniqueIndex⟩)

/-- No two stored patients share an `anon_id`. -/
def patientNodupIds : List PatientDoc → Bool
  | [] => true
  | d :: rest => !(rest.any (fun e => e.anon_id = d.anon_id)) && patientNodupIds rest

/-- `PatientDao._ensure_index_exists`. -/
def patient_ensure_index (c : PatientColl) : Except DbError PatientColl :=
  if c.hasUniqueIndex then .ok c
  else if patientNodupIds c.docs then .ok ⟨c.docs, c.nextId, true⟩
  else .error .duplicateKey

/-- `PatientDao.insert_one` (mongo_dao.py lines 271-286) for a patient whose
only identifier is its `anon_id` (the stage-2 flow): with `skip_duplicates`
an existing patient is detected by querying `anon_id` first and its `_id`
returned without inserting; otherwise the insert runs directly and a
`DuplicateKeyError` propagates. -/
def PatientDao_insert_one (c : PatientColl) (anon : String)
    (skip_duplicates : Bool) : Except DbError (Nat × PatientColl) :=
  if skip_duplicates then
    match patient_find_one c anon with
    | some d => .ok (d.oid, c)
    | none =>
      match mongo_insert_patient c anon with
      | .ok (id, c') => (patient_ensure_index c').map (fun c'' => (id, c''))
      | .error e => .error e
  else
    match mongo_insert_patient c anon with
    | .ok (id, c') => (patient_ensure_index c').map (fun c'' => (id, c''))
    | .error e => .error e

/-! ## stage_2 batch processors

The per-group body (database reads, consensus, insert, backfill) is
abstracted as a fallible computation `f`; the loop structure and exception
handling around it follow the source. -/

/-- The loop of `stage_2_group_series.process_series_batch` (lines 61-74):
each group is processed inside `try/except Exception`, a failure is logged
and swallowed, and `counter` is incremented for every group either way. -/
def process_series_batchGo {G E : Type _} (f : G → Except E Unit)
    (counter : Nat) : List G → Nat
  | [] => counter
  | g :: rest =>
    match f g with
    | .ok _ => process_series_batchGo f (counter + 1) rest
    | .error _ => process_series_batchGo f (counter + 1) rest

/-- `process_series_batch`: returns the single counter (one per group seen,
persisted or not). -/
def process_series_batch {G E : Type _} (f : G → Except E Unit)
    (batch : List G) : Nat :=
  process_series_batchGo f 0 batch

/-- The loop of `stage_2_group_patients.process_patient_batch` (lines
31-50): no `try/except` — the first failing group propagates its exception
out of the batch; otherwise `counter` counts the processed groups. -/
def process_patient_batchGo {G E : Type _} (f : G → Except E Unit)
    (counter : Nat) : List G → Except E Nat
  | [] => .ok counter
  | g :: rest =>
    match f g with
    | .ok _ => process_patient_batchGo f (counter + 1) rest
    | .error e => .error e

/-- `process_patient_batch`: a single counter on success, an uncaught
exception otherwise. -/
def process_patient_batch {G E : Type _} (f : G → Except E Unit)
    (batch : List G) : Except E Nat :=
  process_patient_batchGo f 0 batch

/-- The loop of `stage_2_group_studies.process_study_batch` (lines 102-123):
`group_study` returning `None` (its internal `ValueError` handler) makes the
group skip without counting (`.ok false`); any other exception propagates;
successful groups count (`.ok true`). -/
def process_study_batchGo {G E : Type _} (f : G → Except E Bool)
    (counter : Nat) : List G → Except E Nat
  | [] => .ok counter
  | g :: rest =>
    match f g with
    | .ok true => process_study_batchGo f (counter + 1) rest
    | .ok false => process_study_batchGo f counter rest
    | .error e => .error e

/-- `process_study_batch`: counts only persisted groups, propagates uncaught
exceptions. -/
def process_study_batch {G E : Type _} (f : G → Except E Bool)
    (batch : List G) : Except E Nat :=
  process_study_batchGo f 0 batch

/-! ## Order facts about the string comparison used by `sorted` -/

lemma charListLe_total : ∀ a b : List Char, charListLe a b = true ∨ charListLe b a = true
  | [], _ => by left; cases ‹List Char› <;> rfl
  | _ :: _, [] => by right; rfl
  | a :: as, b :: bs => by
    rcases Nat.lt_trichotomy a.toNat b.toNat with h | h | h
    · left; simp [charListLe, h]
    · rcases charListLe_total as bs with ih | ih
      · left; simp [charListLe, h, ih]
      · right; simp [charListLe, h.symm, ih]
    · right; simp [charListLe, h]

lemma charListLe_antisymm : ∀ a b : List Char,
    charListLe a b = true → charListLe b a = true → a = b
  | [], [], _, _ => rfl
  | [], _ :: _, _, h => by simp [charListLe] at h
  | _ :: _, [], h, _ => by simp [charListLe] at h
  | a :: as, b :: bs, h₁, h₂ => by
    rcases Nat.lt_trichotomy a.toNat b.toNat with h | h | h
    · simp [charListLe, h, show ¬ b.toNat < a.toNat by omega] at h₂
    · have hc : a = b := Char.ext (UInt32.toNat.inj h)
      subst hc
      simp only [charListLe, Nat.lt_irrefl, if_false] at h₁ h₂
      exact congrArg (a :: ·) (charListLe_antisymm as bs h₁ h₂)
    · simp [charListLe, h, show ¬ a.toNat < b.toNat by omega] at h₁

lemma charListLe_trans : ∀ a b c : List Char,
    charListLe a b = true → charListLe b c = true → charListLe a c = true
  | [], _, _, _, _ => rfl
  | _ :: _, [], _, h, _ => by simp [charListLe] at h
  | _ :: _, _ :: _, [], _, h => by simp [charListLe] at h
  | a :: as, b :: bs, c :: cs, h₁, h₂ => by
    rcases Nat.lt_trichotomy a.toNat b.toNat with hab | hab | hab
    · rcases Nat.lt_trichotomy b.toNat c.toNat with hbc | hbc | hbc
      · simp [charListLe, show a.toNat < c.toNat by omega]
      · simp [charListLe, show a.toNat < c.toNat by omega]
      · simp [charListLe, show ¬ b.toNat < c.toNat by omega, hbc] at h₂
    · simp only [charListLe, show ¬ a.toNat < b.toNat by omega,
        show ¬ b.toNat < a.toNat by omega, if_false] at h₁
      rcases Nat.lt_trichotomy b.toNat c.toNat with hbc | hbc | hbc
      · simp [charListLe, show a.toNat < c.toNat by omega]
      · simp only [charListLe, show ¬ b.toNat < c.toNat by omega,
          show ¬ c.toNat < b.toNat by omega, if_false] at h₂
        simp only [charListLe, show ¬ a.toNat < c.toNat by omega,
          show ¬ c.toNat < a.toNat by omega, if_false]
        exact charListLe_trans as bs cs h₁ h₂
      · simp [charListLe, show ¬ b.toNat < c.toNat by omega, hbc] at h₂
    · simp [charListLe, show ¬ a.toNat < b.toNat by omega, hab] at h₁

lemma strLe_total : ∀ a b : String, strLe a b = true ∨ strLe b a = true :=
  fun a b => charListLe_total a.data b.data

lemma strLe_antisymm : ∀ a b : String, strLe a b = true → strLe b a = true → a = b
  | ⟨la⟩, ⟨lb⟩, h₁, h₂ => congrArg String.mk (charListLe_antisymm la lb h₁ h₂)

lemma strLe_trans : ∀ a b c : String,
    strLe a b = true → strLe b c = true → strLe a c = true :=
  fun a b c => charListLe_trans a.data b.data c.data

instance : IsTotal String (fun a b => strLe a b = true) := ⟨strLe_total⟩

instance : IsTrans String (fun a b => strLe a b = true) :=
  ⟨fun a b c => strLe_trans a b c⟩

instance : IsAntisymm String (fun a b => strLe a b = true) :=
  ⟨fun a b => strLe_antisymm a b⟩

lemma sortStrings_perm (l : List String) : (sortStrings l).Perm l :=
  List.perm_insertionSort _ l

lemma sortStrings_sorted (l : List String) :
    List.Sorted (fun a b => strLe a b = true) (sortStrings l) :=
  List.sorted_insertionSort _ l

lemma sortStrings_eq_of_perm {l₁ l₂ : List String} (h : l₁.Perm l₂) :
    sortStrings l₁ = sortStrings l₂ :=
  List.eq_of_perm_of_sorted
    ((sortStrings_perm l₁).trans (h.trans (sortStrings_perm l₂).symm))
    (sortStrings_sorted l₁) (sortStrings_sorted l₂)

/-! ## Key-set and lookup lemmas for the consensus reducers -/

lemma mem_allKeysSorted {dicts : List Record} {k : String} :
    k ∈ allKeysSorted dicts ↔ ∃ d ∈ dicts, k ∈ recKeys d := by
  unfold allKeysSorted
  rw [(sortStrings_perm _).mem_iff, List.mem_dedup, List.mem_flatMap]

lemma nodup_allKeysSorted (dicts : List Record) : (allKeysSorted dicts).Nodup :=
  (sortStrings_perm _).nodup_iff.mpr (List.nodup_dedup _)

lemma allKeysSorted_perm_eq {dicts dicts' : List Record}
    (h : dicts.Perm dicts') : allKeysSorted dicts = allKeysSorted dicts' :=
  sortStrings_eq_of_perm (h.flatMap_right recKeys).dedup

lemma presentValues_perm {dicts dicts' : List Record} (h : dicts.Perm dicts')
    (k : String) : (presentValues dicts k).Perm (presentValues dicts' k) :=
  h.filterMap _

lemma mem_recKeys_of_pyGet {d : Record} {k : String} {v : PyVal}
    (h : pyGet d k = some v) : k ∈ recKeys d := by
  unfold pyGet at h
  cases hf : d.find? (fun p => p.1 = k) with
  | none => rw [hf] at h; exact absurd h (by simp)
  | some p =>
    have hk : p.1 = k := by
      have := List.find?_some hf
      simpa using this
    have hm : p ∈ d := List.mem_of_find?_eq_some hf
    exact hk ▸ List.mem_map_of_mem Prod.fst hm

lemma mem_allKeysSorted_of_presentValues {dicts : List Record} {k : String}
    (h : presentValues dicts k ≠ []) : k ∈ allKeysSorted dicts := by
  rcases List.exists_mem_of_ne_nil _ h with ⟨v, hv⟩
  rcases List.mem_filterMap.mp hv with ⟨d, hd, hg⟩
  exact mem_allKeysSorted.mpr ⟨d, hd, mem_recKeys_of_pyGet hg⟩

lemma majorityKeep_fst {dicts : List Record} {k : String}
    {p : String × Option PyVal} (h : majorityKeep dicts k = some p) :
    p.1 = k := by
  unfold majorityKeep at h
  split at h
  · exact absurd h (by simp)
  · split at h
    · exact absurd h (by simp)
    · split at h
      · cases h; rfl
      · exact absurd h (by simp)

lemma majorityKeep_nil {dicts : List Record} {k : String}
    (h : presentValues dicts k = []) : majorityKeep dicts k = none := by
  unfold majorityKeep; rw [h]

lemma majorityKeep_cons {dicts : List Record} {k : String} {v0 : PyVal}
    {vs : List PyVal} (h : presentValues dicts k = v0 :: vs) :
    majorityKeep dicts k =
      if (v0 :: vs).length < dicts.length / 2 + 1 then none
      else if vs.all (fun v => pyStrOf v0 = pyStrOf v) then some (k, some v0)
      else none := by
  unfold majorityKeep; rw [h]

lemma recFind_filterMap {F : String → Option (String × Option PyVal)}
    (hF : ∀ k p, F k = some p → p.1 = k) :
    ∀ L : List String, L.Nodup → ∀ k : String,
      recFind (L.filterMap F) k = if k ∈ L then (F k).map Prod.snd else none
  | [], _, k => by simp [recFind]
  | a :: L, hnd, k => by
    have hndL : L.Nodup := (List.nodup_cons.mp hnd).2
    have haL : a ∉ L := (List.nodup_cons.mp hnd).1
    by_cases hk : k = a
    · subst hk
      cases hFa : F k with
      | none =>
        rw [List.filterMap_cons_none hFa, recFind_filterMap hF L hndL k,
          if_neg haL]
        simp [hFa]
      | some p =>
        have hp : p.1 = k := hF _ _ hFa
        rw [List.filterMap_cons_some hFa]
        simp [recFind, List.find?_cons, hp, hFa]
    · cases hFa : F a with
      | none =>
        rw [List.filterMap_cons_none hFa, recFind_filterMap hF L hndL k]
        simp [List.mem_cons, hk]
      | some p =>
        have hp : p.1 = a := hF _ _ hFa
        rw [List.filterMap_cons_some hFa]
        have : recFind (p :: L.filterMap F) k = recFind (L.filterMap F) k := by
          simp [recFind, List.find?_cons, hp, hk, Ne.symm]
        rw [this, recFind_filterMap hF L hndL k]
        simp [List.mem_cons, hk]

lemma recKeys_filterMap {F : String → Option (String × Option PyVal)}
    (hF : ∀ k p, F k = some p → p.1 = k) :
    ∀ L : List String,
      recKeys (L.filterMap F) = L.filter (fun k => (F k).isSome)
  | [] => rfl
  | a :: L => by
    cases hFa : F a with
    | none =>
      rw [List.filterMap_cons_none hFa]
      simp only [List.filter_cons, hFa, Option.isSome_none]
      exact recKeys_filterMap hF L
    | some p =>
      rw [List.filterMap_cons_some hFa]
      simp only [List.filter_cons, hFa, Option.isSome_some, if_true, recKeys,
        List.map_cons, cond_true]
      rw [hF _ _ hFa]
      exact congrArg (a :: ·) (recKeys_filterMap hF L)

/-- Characterization of a lookup in the output of
`intersect_dicts_allow_empty_minority`: a key maps to a value iff at least
`n // 2 + 1` records carry the key with a non-`None` value, all present
values agree under `str`, and the stored value is the first present one. -/
lemma majority_lookup (dicts : List Record) (k : String) (x : Option PyVal) :
    recFind (intersect_dicts_allow_empty_minority dicts) k = some x ↔
    ∃ v, x = some v ∧
      dicts.length / 2 + 1 ≤ (presentValues dicts k).length ∧
      (presentValues dicts k).head? = some v ∧
      ∀ w ∈ presentValues dicts k, pyStrOf w = pyStrOf v := by
  rw [intersect_dicts_allow_empty_minority,
    recFind_filterMap (fun _ _ h => majorityKeep_fst h) _
      (nodup_allKeysSorted dicts) k]
  by_cases hmem : k ∈ allKeysSorted dicts
  · rw [if_pos hmem]
    cases hvs : presentValues dicts k with
    | nil =>
      rw [majorityKeep_nil hvs]
      simp only [Option.map_none']
      constructor
      · intro h; exact absurd h (by simp)
      · rintro ⟨v, _, _, hhead, _⟩; exact absurd hhead (by simp)
    | cons v0 vs =>
      rw [majorityKeep_cons hvs]
      by_cases hlen : (v0 :: vs).length < dicts.length / 2 + 1
      · rw [if_pos hlen]
        simp only [Option.map_none']
        constructor
        · intro h; exact absurd h (by simp)
        · rintro ⟨v, _, hge, _, _⟩
          omega
      · rw [if_neg hlen]
        by_cases hagree : vs.all (fun v => pyStrOf v0 = pyStrOf v) = true
        · rw [if_pos hagree]
          simp only [Option.map_some', Option.some.injEq]
          constructor
          · intro h
            refine ⟨v0, h.symm, by omega, rfl, ?_⟩
            intro w hw
            rcases List.mem_cons.mp hw with hw | hw
            · rw [hw]
            · exact (of_decide_eq_true (List.all_eq_true.mp hagree w hw)).symm
          · rintro ⟨v, hx, _, hhead, _⟩
            simp at hhead
            rw [hx, hhead]
        · rw [if_neg hagree]
          simp only [Option.map_none']
          constructor
          · intro h; exact absurd h (by simp)
          · rintro ⟨v, _, _, hhead, hall⟩
            simp at hhead
            exfalso
            apply hagree
            apply List.all_eq_true.mpr
            intro w hw
            have h1 := hall w (List.mem_cons_of_mem _ hw)
            have h0 := hall v0 (List.mem_cons_self _ _)
            simp [h1, h0, hhead]
  · rw [if_neg hmem]
    constructor
    · intro h; exact absurd h (by simp)
    · rintro ⟨v, _, _, hhead, _⟩
      exfalso
      apply hmem
      apply mem_allKeysSorted_of_presentValues
      intro hnil
      rw [hnil] at hhead
      exact absurd hhead (by simp)

/-- `isSome`-characterization of `majorityKeep`: the key survives iff a
majority of records carry it and all present values pairwise agree. -/
lemma majorityKeep_isSome_iff (dicts : List Record) (k : String) :
    (majorityKeep dicts k).isSome = true ↔
      (dicts.length / 2 + 1 ≤ (presentValues dicts k).length ∧
       ∀ a ∈ presentValues dicts k, ∀ b ∈ presentValues dicts k,
         pyStrOf a = pyStrOf b) := by
  cases hvs : presentValues dicts k with
  | nil =>
    rw [majorityKeep_nil hvs]
    simp only [Option.isSome_none, List.length_nil]
    constructor
    · intro h; exact absurd h (by simp)
    · rintro ⟨hge, _⟩; omega
  | cons v0 vs =>
    rw [majorityKeep_cons hvs]
    by_cases hlen : (v0 :: vs).length < dicts.length / 2 + 1
    · rw [if_pos hlen]
      simp only [Option.isSome_none]
      constructor
      · intro h; exact absurd h (by simp)
      · rintro ⟨hge, _⟩; omega
    · rw [if_neg hlen]
      by_cases hagree : vs.all (fun v => pyStrOf v0 = pyStrOf v) = true
      · rw [if_pos hagree]
        simp only [Option.isSome_some, true_iff]
        refine ⟨by omega, ?_⟩
        have hv : ∀ a ∈ v0 :: vs, pyStrOf a = pyStrOf v0 := by
          intro a ha
          rcases List.mem_cons.mp ha with ha | ha
          · rw [ha]
          · exact (of_decide_eq_true (List.all_eq_true.mp hagree a ha)).symm
        intro a ha b hb
        rw [hv a ha, hv b hb]
      · rw [if_neg hagree]
        simp only [Option.isSome_none]
        constructor
        · intro h; exact absurd h (by simp)
        · rintro ⟨_, hpair⟩
          exfalso
          apply hagree
          apply List.all_eq_true.mpr
          intro w hw
          have := hpair v0 (List.mem_cons_self _ _) w (List.mem_cons_of_mem _ hw)
          simp [this]

lemma majorityKeep_isSome_congr {dicts dicts' : List Record}
    (hp : dicts.Perm dicts') (k : String) :
    (majorityKeep dicts k).isSome = (majorityKeep dicts' k).isSome := by
  have hvp := presentValues_perm hp k
  have h1 := majorityKeep_isSome_iff dicts k
  have h2 := majorityKeep_isSome_iff dicts' k
  cases hs : (majorityKeep dicts k).isSome with
  | true =>
    rcases h1.mp hs with ⟨hge, hpair⟩
    exact (h2.mpr ⟨by rw [← hvp.length_eq, ← hp.length_eq]; exact hge,
      fun a ha b hb => hpair a (hvp.mem_iff.mpr ha) b (hvp.mem_iff.mpr hb)⟩).symm
  | false =>
    cases hs' : (majorityKeep dicts' k).isSome with
    | false => rfl
    | true =>
      rcases h2.mp hs' with ⟨hge, hpair⟩
      have : (majorityKeep dicts k).isSome = true :=
        h1.mpr ⟨by rw [hvp.length_eq, hp.length_eq]; exact hge,
          fun a ha b hb => hpair a (hvp.mem_iff.mp ha) b (hvp.mem_iff.mp hb)⟩
      rw [hs] at this
      exact this

lemma filterMap_length_of_all_some {α β : Type _} (f : α → Option β) :
    ∀ l : List α, (∀ a ∈ l, (f a).isSome = true) →
      (l.filterMap f).length = l.length
  | [], _ => rfl
  | a :: l, h => by
    cases hf : f a with
    | none =>
      have := h a (List.mem_cons_self _ _)
      rw [hf] at this
      exact absurd this (by simp)
    | some b =>
      simp only [List.filterMap_cons, hf, List.length_cons]
      rw [filterMap_length_of_all_some f l
        (fun x hx => h x (List.mem_cons_of_mem _ hx))]

lemma head?_mem {α : Type _} {l : List α} {a : α} (h : l.head? = some a) :
    a ∈ l := by
  cases l with
  | nil => exact absurd h (by simp)
  | cons x xs =>
    simp at h
    rw [h]
    exact List.mem_cons_self _ _

/-- A record entry is what `d.get` returns when the record's keys are
unique (the Python `dict` invariant). -/
lemma pyGet_of_mem_nodup {d : Record} {p : String × Option PyVal}
    (hmem : p ∈ d) (hnd : (recKeys d).Nodup) : pyGet d p.1 = p.2 := by
  induction d with
  | nil => exact absurd hmem (by simp)
  | cons q rest ih =>
    rcases List.mem_cons.mp hmem with hq | hq
    · subst hq
      simp [pyGet, List.find?_cons]
    · have hnd' : (recKeys rest).Nodup := (List.nodup_cons.mp hnd).2
      have hqp : q.1 ≠ p.1 := by
        intro hcontra
        apply (List.nodup_cons.mp hnd).1
        rw [hcontra]
        exact List.mem_map_of_mem Prod.fst hq
      have := ih hq hnd'
      simpa [pyGet, List.find?_cons, hqp] using this

/-! ## Claim theorems: C1, C2, C3 -/

/-- The records of the spec's concrete scenario
`[{a:1,b:2,c:3,e:4}, {a:1,b:2}, {a:1,b:0,c:3,d:None}]`. -/
def exRec1 : Record :=
  [("a", some (.pyInt 1)), ("b", some (.pyInt 2)), ("c", some (.pyInt 3)),
   ("e", some (.pyInt 4))]

def exRec2 : Record := [("a", some (.pyInt 1)), ("b", some (.pyInt 2))]

def exRec3 : Record :=
  [("a", some (.pyInt 1)), ("b", some (.pyInt 0)), ("c", some (.pyInt 3)),
   ("d", none)]

/-- C1: for every non-empty list of `n` records,
`intersect_dicts_allow_empty_minority` keeps a key iff the key is present
with a non-`None` value in at least `n / 2 + 1` records and all present
values agree under string serialization, mapping the kept key to the first
present value; on `[{a:1,b:2,c:3,e:4}, {a:1,b:2}, {a:1,b:0,c:3,d:None}]` it
returns exactly `{a:1, c:3}`. -/
theorem C1_majority_characterization (dicts : List Record) (h : dicts ≠ [])
    (k : String) (x : Option PyVal) :
    (recFind (intersect_dicts_allow_empty_minority dicts) k = some x ↔
      ∃ v, x = some v ∧
        dicts.length / 2 + 1 ≤ (presentValues dicts k).length ∧
        (presentValues dicts k).head? = some v ∧
        ∀ w ∈ presentValues dicts k, pyStrOf w = pyStrOf v) ∧
    intersect_dicts_allow_empty_minority [exRec1, exRec2, exRec3] =
      [("a", some (.pyInt 1)), ("c", some (.pyInt 3))] :=
  ⟨majority_lookup dicts k x, by decide⟩

/-- Witness for C1 at the spec's concrete scenario. -/
theorem C1_majority_characterization_witness :
    intersect_dicts_allow_empty_minority [exRec1, exRec2, exRec3] =
      [("a", some (.pyInt 1)), ("c", some (.pyInt 3))] :=
  (C1_majority_characterization [exRec1, exRec2, exRec3] (by decide) "a"
    (some (.pyInt 1))).2

/-- Records that disagree structurally but agree under `str`:
`{"a": 1}` versus `{"a": "1"}`. -/
def permRecA : Record := [("a", some (.pyInt 1))]

def permRecB : Record := [("a", some (.pyStr "1"))]

/-- C2 fails as stated: permuting the input can change which structurally
distinct (but string-equal) value is kept, so the results are not
identical. -/
theorem C2_counterexample :
    [permRecA, permRecB].Perm [permRecB, permRecA] ∧
    intersect_dicts_allow_empty_minority [permRecA, permRecB] =
      [("a", some (.pyInt 1))] ∧
    intersect_dicts_allow_empty_minority [permRecB, permRecA] =
      [("a", some (.pyStr "1"))] ∧
    intersect_dicts_allow_empty_minority [permRecA, permRecB] ≠
      intersect_dicts_allow_empty_minority [permRecB, permRecA] :=
  ⟨List.Perm.swap permRecB permRecA [], by decide, by decide, by decide⟩

/-- C2 as amended: under any permutation of the input the result has the
same keys, and the value kept for each key has the same string
serialization (the results are identical up to `str`-equality of values;
they are literally identical whenever no two records carry structurally
different but string-equal values). -/
theorem C2_order_independence (dicts dicts' : List Record)
    (hp : dicts.Perm dicts') :
    recKeys (intersect_dicts_allow_empty_minority dicts) =
      recKeys (intersect_dicts_allow_empty_minority dicts') ∧
    ∀ k x x',
      recFind (intersect_dicts_allow_empty_minority dicts) k = some x →
      recFind (intersect_dicts_allow_empty_minority dicts') k = some x' →
      pyStrOfOpt x = pyStrOfOpt x' := by
  constructor
  · unfold intersect_dicts_allow_empty_minority
    rw [recKeys_filterMap (fun _ _ h => majorityKeep_fst h),
      recKeys_filterMap (fun _ _ h => majorityKeep_fst h),
      allKeysSorted_perm_eq hp]
    exact List.filter_congr (fun k _ => majorityKeep_isSome_congr hp k)
  · intro k x x' h h'
    rcases (majority_lookup dicts k x).mp h with ⟨v, hx, _, hhead, hall⟩
    rcases (majority_lookup dicts' k x').mp h' with ⟨v', hx', _, hhead', _⟩
    have hv' : v' ∈ presentValues dicts k :=
      (presentValues_perm hp k).mem_iff.mpr (head?_mem hhead')
    rw [hx, hx']
    exact (hall v' hv').symm

/-- Witness for C2 as amended, at the permuted pair of records. -/
theorem C2_order_independence_witness :
    recKeys (intersect_dicts_allow_empty_minority [permRecA, permRecB]) =
      recKeys (intersect_dicts_allow_empty_minority [permRecB, permRecA]) :=
  (C2_order_independence [permRecA, permRecB] [permRecB, permRecA]
    (List.Perm.swap permRecB permRecA [])).1

/-- The record `{"a": None}` on which C3 fails. -/
def noneRec : Record := [("a", none)]

/-- C3 fails as stated: on `[{"a": None}]` the strict intersection keeps
`a ↦ None` while the majority intersection filters `None` values out and
drops the key. -/
theorem C3_counterexample :
    intersect_dicts [noneRec] = [("a", none)] ∧
    intersect_dicts_allow_empty_minority [noneRec] = [] ∧
    recFind (intersect_dicts [noneRec]) "a" = some none ∧
    recFind (intersect_dicts_allow_empty_minority [noneRec]) "a" = none := by
  refine ⟨by decide, by decide, by decide, by decide⟩

/-- C3 as amended: for every non-empty list of well-formed records (unique
keys, as Python dicts guarantee) in which no record maps a key to `None`,
every key-value pair of the strict intersection also appears in the
majority intersection. -/
theorem C3_strict_subset_majority (dicts : List Record) (h0 : dicts ≠ [])
    (hnn : ∀ d ∈ dicts, ∀ p ∈ d, p.2 ≠ none)
    (hnd : ∀ d ∈ dicts, (recKeys d).Nodup) :
    ∀ p ∈ intersect_dicts dicts,
      recFind (intersect_dicts_allow_empty_minority dicts) p.1 = some p.2 := by
  cases dicts with
  | nil => exact absurd rfl h0
  | cons d0 rest =>
    intro p hp
    rw [intersect_dicts] at hp
    rcases List.mem_filter.mp hp with ⟨hmem, hcond⟩
    rcases hw : p.2 with _ | w
    · exact absurd hw (hnn d0 (List.mem_cons_self _ _) p hmem)
    · have hget0 : pyGet d0 p.1 = some w := by
        rw [pyGet_of_mem_nodup hmem (hnd d0 (List.mem_cons_self _ _)), hw]
      have hrest : ∀ d ∈ rest, ∃ dv, pyGet d p.1 = some dv ∧
          pyStrOf dv = pyStrOf w := by
        intro d hd
        have := List.all_eq_true.mp hcond d hd
        cases hg : pyGet d p.1 with
        | none => rw [hg] at this; exact absurd this (by simp)
        | some dv =>
          rw [hg] at this
          refine ⟨dv, rfl, ?_⟩
          have : pyStrOf dv = pyStrOfOpt p.2 := of_decide_eq_true this
          rw [hw] at this
          exact this
      have hpv : presentValues (d0 :: rest) p.1 =
          w :: presentValues rest p.1 := by
        unfold presentValues
        simp only [List.filterMap_cons, hget0]
      have hlenrest : (presentValues rest p.1).length = rest.length := by
        apply filterMap_length_of_all_some
        intro d hd
        rcases hrest d hd with ⟨dv, hdv, _⟩
        rw [hdv]
        rfl
      apply (majority_lookup (d0 :: rest) p.1 (some w)).mpr
      refine ⟨w, rfl, ?_, by rw [hpv]; rfl, ?_⟩
      · rw [hpv]
        simp only [List.length_cons, hlenrest]
        omega
      · intro u hu
        rw [hpv] at hu
        rcases List.mem_cons.mp hu with hu | hu
        · rw [hu]
        · rcases List.mem_filterMap.mp hu with ⟨d, hd, hdg⟩
          rcases hrest d hd with ⟨dv, hdv, hstr⟩
          rw [hdv] at hdg
          cases hdg
          exact hstr

/-- Witness for C3 as amended, on two `None`-free records. -/
theorem C3_strict_subset_majority_witness :
    recFind (intersect_dicts_allow_empty_minority [exRec1, exRec2]) "a" =
      some (some (.pyInt 1)) :=
  C3_strict_subset_majority [exRec1, exRec2] (by decide)
    (by decide) (by decide) ("a", some (.pyInt 1)) (by decide)

/-! ## Claim theorems: C4 (set_union) -/

lemma mem_pySetInsert {x y : String} {s : List String} :
    x ∈ pySetInsert y s ↔ x = y ∨ x ∈ s := by
  unfold pySetInsert
  by_cases hy : y ∈ s
  · rw [if_pos hy]
    constructor
    · exact Or.inr
    · rintro (h | h)
      · rw [h]; exact hy
      · exact h
  · rw [if_neg hy]
    exact List.mem_orderedInsert _

lemma mem_pySetFold {t : List String} :
    ∀ (s : List String) (x : String),
      x ∈ t.foldl (fun acc y => pySetInsert y acc) s ↔ x ∈ s ∨ x ∈ t := by
  induction t with
  | nil => simp
  | cons y t ih =>
    intro s x
    rw [List.foldl_cons, ih]
    rw [mem_pySetInsert]
    simp [List.mem_cons]
    tauto

lemma mem_pySetUnion {s t : List String} {x : String} :
    x ∈ pySetUnion s t ↔ x ∈ s ∨ x ∈ t :=
  mem_pySetFold s x

lemma mem_set_union_vals_fold {kw : String} :
    ∀ (tags : List TagRec) (acc : List String) (x : String),
      x ∈ tags.foldl (fun values d => pySetUnion values (get_tag d kw)) acc ↔
        x ∈ acc ∨ ∃ d ∈ tags, x ∈ get_tag d kw := by
  intro tags
  induction tags with
  | nil => simp
  | cons d tags ih =>
    intro acc x
    rw [List.foldl_cons, ih, mem_pySetUnion]
    constructor
    · rintro ((h | h) | ⟨d', hd', hx⟩)
      · exact Or.inl h
      · exact Or.inr ⟨d, List.mem_cons_self _ _, h⟩
      · exact Or.inr ⟨d', List.mem_cons_of_mem _ hd', hx⟩
    · rintro (h | ⟨d', hd', hx⟩)
      · exact Or.inl (Or.inl h)
      · rcases List.mem_cons.mp hd' with rfl | hd'
        · exact Or.inl (Or.inr hx)
        · exact Or.inr ⟨d', hd', hx⟩

lemma mem_set_union_vals {tags : List TagRec} {kw x : String} :
    x ∈ set_union_vals tags kw ↔ ∃ d ∈ tags, x ∈ get_tag d kw := by
  unfold set_union_vals
  rw [mem_set_union_vals_fold tags [] x]
  simp

/-- The three records of the Modality scenario: two report `MR`, one `CT`. -/
def mrRec : TagRec := [("Modality", some (.single "MR"))]

def ctRec : TagRec := [("Modality", some (.single "CT"))]

/-- C4 fails as stated: `list(values)` enumerates a Python `set` in an
unspecified hash-dependent order and the code never sorts, so an admissible
enumeration returns `["MR", "CT"]`, not the sorted `["CT", "MR"]`. -/
theorem C4_counterexample :
    set_union_vals [mrRec, mrRec, ctRec] "Modality" = ["CT", "MR"] ∧
    (set_union_vals [mrRec, mrRec, ctRec] "Modality").reverse.Perm
      (set_union_vals [mrRec, mrRec, ctRec] "Modality") ∧
    set_union (fun l => l.reverse) [mrRec, mrRec, ctRec] "Modality" =
      some ["MR", "CT"] ∧
    (["MR", "CT"] : List String) ≠ ["CT", "MR"] :=
  ⟨by decide, List.reverse_perm _, by decide, by decide⟩

/-- C4 as amended: `set_union` returns `None` iff no record carries the
keyword with a value; otherwise it returns a list enumerating, in an
unspecified order, exactly the distinct values across the records
(list-valued fields expanded as sets); on the Modality scenario MR, MR, CT
the canonical value set is `{CT, MR}`. -/
theorem C4_set_union (enum : List String → List String)
    (henum : ∀ l, (enum l).Perm l) (tags : List TagRec) (kw : String) :
    (set_union enum tags kw = none ↔ ∀ d ∈ tags, get_tag d kw = []) ∧
    (∀ l, set_union enum tags kw = some l →
      ∀ x, x ∈ l ↔ ∃ d ∈ tags, x ∈ get_tag d kw) ∧
    set_union (fun l => l) [mrRec, mrRec, ctRec] "Modality" =
      some ["CT", "MR"] := by
  refine ⟨?_, ?_, by decide⟩
  · unfold set_union
    constructor
    · intro h d hd
      by_cases hz : (set_union_vals tags kw).length = 0
      · apply List.eq_nil_iff_forall_not_mem.mpr
        intro x hx
        have : x ∈ set_union_vals tags kw :=
          mem_set_union_vals.mpr ⟨d, hd, hx⟩
        rw [List.length_eq_zero.mp hz] at this
        exact absurd this (by simp)
      · rw [if_neg hz] at h
        exact absurd h (by simp)
    · intro h
      have hz : set_union_vals tags kw = [] := by
        apply List.eq_nil_iff_forall_not_mem.mpr
        intro x hx
        rcases mem_set_union_vals.mp hx with ⟨d, hd, hmem⟩
        rw [h d hd] at hmem
        exact absurd hmem (by simp)
      rw [if_pos (by rw [hz]; rfl)]
  · intro l hl x
    unfold set_union at hl
    by_cases hz : (set_union_vals tags kw).length = 0
    · rw [if_pos hz] at hl
      exact absurd hl (by simp)
    · rw [if_neg hz] at hl
      have hle : l = enum (set_union_vals tags kw) := by
        injection hl with h
        exact h.symm
      rw [hle, (henum _).mem_iff, mem_set_union_vals]

/-- Witness for C4 as amended, with the identity enumeration. -/
theorem C4_set_union_witness :
    set_union (fun l => l) [mrRec, mrRec, ctRec] "Modality" =
      some ["CT", "MR"] :=
  (C4_set_union (fun l => l) (fun l => List.Perm.refl l) [] "Modality").2.2

/-! ## Claim theorem: C9 (batcher) -/

lemma batcherGo_spec {α : Type _} (bs : Nat) (hbs : 1 ≤ bs) :
    ∀ (l batch : List α) (counter : Nat),
      batch.length < bs → counter % bs = batch.length →
      (batcherGo bs l batch counter).flatten = batch ++ l ∧
      (∀ b ∈ (batcherGo bs l batch counter).dropLast, b.length = bs) ∧
      (∀ b ∈ batcherGo bs l batch counter, b ≠ [] ∧ b.length ≤ bs)
  | [], batch, counter, hlt, _ => by
    unfold batcherGo
    by_cases hb : batch.length > 0
    · rw [if_pos (by simpa using hb)]
      refine ⟨by simp, by simp, ?_⟩
      intro b hb'
      rcases List.mem_singleton.mp hb' with rfl
      exact ⟨by intro h; rw [h] at hb; exact absurd hb (by simp), by omega⟩
    · have hbe : batch = [] := by
        cases batch with
        | nil => rfl
        | cons _ _ => simp at hb
      subst hbe
      rw [if_neg (by simpa using hb)]
      simp
  | i :: rest, batch, counter, hlt, hcnt => by
    have key : (counter + 1) % bs = (batch.length + 1) % bs := by
      rw [Nat.add_mod counter 1 bs, hcnt, Nat.add_mod batch.length 1 bs,
        Nat.mod_eq_of_lt hlt]
    unfold batcherGo
    by_cases hz : (counter + 1) % bs = 0
    · rw [if_pos (by simpa using hz)]
      have hfull : batch.length + 1 = bs := by
        rw [key] at hz
        rcases Nat.lt_or_ge (batch.length + 1) bs with h | h
        · rw [Nat.mod_eq_of_lt h] at hz
          omega
        · have : batch.length + 1 ≤ bs := by omega
          omega
      have ih := batcherGo_spec bs hbs rest [] (counter + 1)
        (by simp only [List.length_nil]; omega) (by simpa using hz)
      refine ⟨?_, ?_, ?_⟩
      · rw [List.flatten_cons, ih.1]
        simp
      · intro b hb
        by_cases hnil : batcherGo bs rest [] (counter + 1) = []
        · rw [hnil] at hb
          exact absurd hb (by simp)
        · rw [List.dropLast_cons_of_ne_nil hnil] at hb
          rcases List.mem_cons.mp hb with rfl | hb
          · simp [hfull]
          · exact ih.2.1 b hb
      · intro b hb
        rcases List.mem_cons.mp hb with rfl | hb
        · exact ⟨by simp, by simp [hfull]⟩
        · exact ih.2.2 b hb
    · rw [if_neg (by simpa using hz)]
      have hlt' : batch.length + 1 < bs := by
        rw [key] at hz
        rcases Nat.lt_or_ge (batch.length + 1) bs with h | h
        · exact h
        · have heq : batch.length + 1 = bs := by omega
          rw [heq] at hz
          simp at hz
      have ih := batcherGo_spec bs hbs rest (batch ++ [i]) (counter + 1)
        (by simpa using hlt')
        (by rw [key, Nat.mod_eq_of_lt hlt']; simp)
      refine ⟨?_, ih.2.1, ih.2.2⟩
      rw [ih.1]
      simp

/-- C9: for every finite input and `batch_size ≥ 1`, every yielded batch is
non-empty and no longer than `batch_size`, every batch except possibly the
last has exactly `batch_size` elements, and the concatenation of the
batches is the input in order. -/
theorem C9_batcher {α : Type _} (l : List α) (bs : Nat) (hbs : 1 ≤ bs) :
    (batcher l bs).flatten = l ∧
    (∀ b ∈ (batcher l bs).dropLast, b.length = bs) ∧
    (∀ b ∈ batcher l bs, b ≠ [] ∧ b.length ≤ bs) := by
  have h := batcherGo_spec bs hbs l [] 0
    (by simp only [List.length_nil]; omega) (by simp)
  simpa [batcher] using h

/-- Witness for C9 on the repository's own test vector
`batcher([1,2,3,4,5], 2) = [[1,2],[3,4],[5]]`. -/
theorem C9_batcher_witness :
    (batcher [1, 2, 3, 4, 5] 2).flatten = [1, 2, 3, 4, 5] ∧
    batcher [1, 2, 3, 4, 5] 2 = [[1, 2], [3, 4], [5]] :=
  ⟨(C9_batcher [1, 2, 3, 4, 5] 2 (by decide)).1, by decide⟩

/-! ## Claim theorems: C6 (batch processors) -/

lemma process_series_batchGo_eq {G E : Type} (f : G → Except E Unit) :
    ∀ (batch : List G) (c : Nat),
      process_series_batchGo f c batch = c + batch.length
  | [], c => by simp [process_series_batchGo]
  | g :: rest, c => by
    unfold process_series_batchGo
    cases f g with
    | ok _ =>
      rw [process_series_batchGo_eq f rest (c + 1)]
      simp [List.length_cons]
      omega
    | error _ =>
      rw [process_series_batchGo_eq f rest (c + 1)]
      simp [List.length_cons]
      omega

lemma process_patient_batchGo_ok {G E : Type} (f : G → Except E Unit) :
    ∀ (batch : List G) (c : Nat), (∀ g ∈ batch, f g = .ok ()) →
      process_patient_batchGo f c batch = .ok (c + batch.length)
  | [], c, _ => by simp [process_patient_batchGo]
  | g :: rest, c, h => by
    unfold process_patient_batchGo
    rw [h g (List.mem_cons_self _ _)]
    rw [process_patient_batchGo_ok f rest (c + 1)
      (fun x hx => h x (List.mem_cons_of_mem _ hx))]
    simp [List.length_cons]
    omega

lemma process_patient_batchGo_error {G E : Type} (f : G → Except E Unit)
    {g : G} {e : E} (hg : f g = .error e) :
    ∀ (pre : List G) (post : List G) (c : Nat), (∀ x ∈ pre, f x = .ok ()) →
      process_patient_batchGo f c (pre ++ g :: post) = .error e
  | [], post, c, _ => by
    simp only [List.nil_append]
    unfold process_patient_batchGo
    rw [hg]
  | x :: pre, post, c, h => by
    simp only [List.cons_append]
    unfold process_patient_batchGo
    rw [h x (List.mem_cons_self _ _)]
    exact process_patient_batchGo_error f hg pre post (c + 1)
      (fun y hy => h y (List.mem_cons_of_mem _ hy))

lemma process_study_batchGo_count {G E : Type} (f : G → Except E Bool) :
    ∀ (batch : List G) (c : Nat), (∀ g ∈ batch, ∃ b, f g = .ok b) →
      process_study_batchGo f c batch =
        .ok (c + batch.countP
          (fun g => match f g with | .ok true => true | _ => false))
  | [], c, _ => by simp [process_study_batchGo]
  | g :: rest, c, h => by
    rcases h g (List.mem_cons_self _ _) with ⟨b, hb⟩
    unfold process_study_batchGo
    cases b with
    | true =>
      rw [hb]
      rw [process_study_batchGo_count f rest (c + 1)
        (fun x hx => h x (List.mem_cons_of_mem _ hx))]
      simp [List.countP_cons, hb]
      omega
    | false =>
      rw [hb]
      rw [process_study_batchGo_count f rest c
        (fun x hx => h x (List.mem_cons_of_mem _ hx))]
      simp [List.countP_cons, hb]

lemma process_study_batchGo_error {G E : Type} (f : G → Except E Bool)
    {g : G} {e : E} (hg : f g = .error e) :
    ∀ (pre : List G) (post : List G) (c : Nat),
      (∀ x ∈ pre, ∃ b, f x = .ok b) →
      process_study_batchGo f c (pre ++ g :: post) = .error e
  | [], post, c, _ => by
    simp only [List.nil_append]
    unfold process_study_batchGo
    rw [hg]
  | x :: pre, post, c, h => by
    simp only [List.cons_append]
    rcases h x (List.mem_cons_self _ _) with ⟨b, hb⟩
    unfold process_study_batchGo
    rw [hb]
    cases b with
    | true =>
      exact process_study_batchGo_error f hg pre post (c + 1)
        (fun y hy => h y (List.mem_cons_of_mem _ hy))
    | false =>
      exact process_study_batchGo_error f hg pre post c
        (fun y hy => h y (List.mem_cons_of_mem _ hy))

/-- C6 fails as stated: the patient-stage batch processor has no
`try/except`, so a group whose processing raises aborts the remaining
groups of the batch and the processor reports the error instead of a
counter; the series-stage processor does swallow the error but returns the
single count of groups seen (never a `(seen, persisted)` pair). -/
theorem C6_counterexample :
    process_patient_batch
      (fun g : Nat => if g = 1 then Except.error "bad date" else Except.ok ())
      [0, 1, 2] = Except.error "bad date" ∧
    process_series_batch
      (fun g : Nat => if g = 1 then Except.error "bad date" else Except.ok ())
      [0, 1, 2] = 3 := ⟨rfl, rfl⟩

/-- C6 as amended: the series-stage processor swallows every per-group
failure and returns the single count of groups seen (the batch length); the
patient-stage processor returns a count only when every group succeeds, and
the first failing group aborts the rest of its batch by propagating the
exception; the study-stage processor skips a group whose consensus yields
no study (`.ok false`, the `group_study is None` / `continue` branch)
without counting it and without aborting the batch — on a batch free of
uncaught errors it returns exactly the count of persisted (`.ok true`)
groups — while any other exception propagates out of the study stage after
the error-free prefix. No processor returns a
`(groups_seen, groups_persisted)` pair. -/
theorem C6_batch_processors :
    (∀ (G E : Type) (f : G → Except E Unit) (batch : List G),
      process_series_batch f batch = batch.length) ∧
    (∀ (G E : Type) (f : G → Except E Unit) (batch : List G),
      (∀ g ∈ batch, f g = .ok ()) →
      process_patient_batch f batch = .ok batch.length) ∧
    (∀ (G E : Type) (f : G → Except E Unit) (pre : List G) (g : G)
      (post : List G) (e : E), (∀ x ∈ pre, f x = .ok ()) → f g = .error e →
      process_patient_batch f (pre ++ g :: post) = .error e) ∧
    (∀ (G E : Type) (f : G → Except E Bool) (batch : List G),
      (∀ g ∈ batch, ∃ b, f g = .ok b) →
      process_study_batch f batch =
        .ok (batch.countP
          (fun g => match f g with | .ok true => true | _ => false))) ∧
    (∀ (G E : Type) (f : G → Except E Bool) (pre : List G) (g : G)
      (post : List G) (e : E), (∀ x ∈ pre, ∃ b, f x = .ok b) →
      f g = .error e →
      process_study_batch f (pre ++ g :: post) = .error e) := by
  refine ⟨?_, ?_, ?_, ?_, ?_⟩
  · intro G E f batch
    have := process_series_batchGo_eq f batch 0
    simpa [process_series_batch] using this
  · intro G E f batch h
    have := process_patient_batchGo_ok f batch 0 h
    simpa [process_patient_batch] using this
  · intro G E f pre g post e h hg
    exact process_patient_batchGo_error f hg pre post 0 h
  · intro G E f batch h
    have := process_study_batchGo_count f batch 0 h
    simpa [process_study_batch] using this
  · intro G E f pre g post e h hg
    exact process_study_batchGo_error f hg pre post 0 h

/-- Witness for C6 as amended at concrete batches: a study batch whose
middle group is skipped (`.ok false`) still completes and counts only the
two persisted groups, and a study batch whose middle group errors aborts
with that error. -/
theorem C6_batch_processors_witness :
    process_series_batch
      (fun g : Nat => if g = 1 then Except.error "bad date" else Except.ok ())
      [0, 1, 2] = 3 ∧
    process_patient_batch
      (fun _ : Nat => (Except.ok () : Except String Unit)) [7, 8] = .ok 2 ∧
    process_patient_batch
      (fun g : Nat => if g = 1 then Except.error "bad date" else Except.ok ())
      ([0] ++ 1 :: [2]) = Except.error "bad date" ∧
    process_study_batch
      (fun g : Nat => (Except.ok (decide (g ≠ 1)) : Except String Bool))
      [0, 1, 2] = Except.ok 2 ∧
    process_study_batch
      (fun g : Nat =>
        if g = 1 then Except.error "no PatientID" else Except.ok true)
      ([0] ++ 1 :: [2]) = Except.error "no PatientID" :=
  ⟨C6_batch_processors.1 Nat String _ [0, 1, 2],
   C6_batch_processors.2.1 Nat String _ [7, 8] (by intro g _; rfl),
   C6_batch_processors.2.2.1 Nat String _ [0] 1 [2] "bad date"
     (by intro x hx; rcases List.mem_singleton.mp hx with rfl; rfl) rfl,
   (C6_batch_processors.2.2.2.1 Nat String _ [0, 1, 2]
     (by intro g _; exact ⟨decide (g ≠ 1), rfl⟩)).trans (by decide),
   C6_batch_processors.2.2.2.2 Nat String _ [0] 1 [2] "no PatientID"
     (by intro x hx; rcases List.mem_singleton.mp hx with rfl
         exact ⟨true, rfl⟩) rfl⟩

/-! ## Claim theorem: C5 (insert-or-get idempotence) -/

lemma studyNodupKeys_append {l : List StudyDoc} {x : StudyDoc}
    (hl : studyNodupKeys l = true)
    (hx : ∀ d ∈ l, ¬(x.patientID = d.patientID ∧ x.date = d.date)) :
    studyNodupKeys (l ++ [x]) = true := by
  induction l with
  | nil => rfl
  | cons d rest ih =>
    simp only [studyNodupKeys, Bool.and_eq_true, Bool.not_eq_true'] at hl
    simp only [List.cons_append, studyNodupKeys, Bool.and_eq_true,
      Bool.not_eq_true']
    refine ⟨?_, ih hl.2 (fun e he => hx e (List.mem_cons_of_mem _ he))⟩
    rw [List.append_eq, List.any_append, hl.1]
    simp only [List.any_cons, List.any_nil, Bool.false_or, Bool.or_false]
    exact decide_eq_false (fun hc => hx d (List.mem_cons_self _ _) hc)

lemma patientNodupIds_append {l : List PatientDoc} {x : PatientDoc}
    (hl : patientNodupIds l = true)
    (hx : ∀ d ∈ l, ¬(x.anon_id = d.anon_id)) :
    patientNodupIds (l ++ [x]) = true := by
  induction l with
  | nil => rfl
  | cons d rest ih =>
    simp only [patientNodupIds, Bool.and_eq_true, Bool.not_eq_true'] at hl
    simp only [List.cons_append, patientNodupIds, Bool.and_eq_true,
      Bool.not_eq_true']
    refine ⟨?_, ih hl.2 (fun e he => hx e (List.mem_cons_of_mem _ he))⟩
    rw [List.append_eq, List.any_append, hl.1]
    simp only [List.any_cons, List.any_nil, Bool.false_or, Bool.or_false]
    exact decide_eq_false (fun hc => hx d (List.mem_cons_self _ _) hc)

/-- C5: inserting twice with equivalent grouping-key values (study key
`(PatientID, date)`, patient key `anon_id`), starting from any well-formed
store that does not yet contain the key, returns the same id both times and
leaves exactly one matching document; with `skip_duplicates := false` the
second call propagates the uniqueness violation. -/
theorem C5_insert_or_get (cs : StudyColl) (pid date : String)
    (hnd : studyNodupKeys cs.docs = true)
    (hno : ∀ d ∈ cs.docs, ¬(d.patientID = pid ∧ d.date = date))
    (cp : PatientColl) (anon : String)
    (hpd : patientNodupIds cp.docs = true)
    (hpo : ∀ d ∈ cp.docs, d.anon_id ≠ anon) :
    ∃ id1 c1 id2 c2,
      StudyDao_insert_one cs pid date true = .ok (id1, c1) ∧
      StudyDao_insert_one c1 pid date true = .ok (id1, c1) ∧
      (c1.docs.filter (fun d => d.patientID = pid ∧ d.date = date)).length
        = 1 ∧
      StudyDao_insert_one c1 pid date false = .error .duplicateKey ∧
      PatientDao_insert_one cp anon true = .ok (id2, c2) ∧
      PatientDao_insert_one c2 anon true = .ok (id2, c2) ∧
      (c2.docs.filter (fun d => d.anon_id = anon)).length = 1 ∧
      PatientDao_insert_one c2 anon false = .error .duplicateKey := by
  have hclash_s : studyKeyClash cs pid date = false := by
    unfold studyKeyClash
    rw [List.any_eq_false]
    intro d hd
    simpa using hno d hd
  have hany_p : cp.docs.any (fun d => d.anon_id = anon) = false := by
    rw [List.any_eq_false]
    intro d hd
    simpa using hpo d hd
  refine ⟨cs.nextId, ⟨cs.docs ++ [⟨cs.nextId, pid, date⟩], cs.nextId + 1, true⟩,
    cp.nextId, ⟨cp.docs ++ [⟨cp.nextId, anon⟩], cp.nextId + 1, true⟩,
    ?_, ?_, ?_, ?_, ?_, ?_, ?_, ?_⟩
  · -- first study insert
    unfold StudyDao_insert_one mongo_insert_study
    rw [if_pos rfl, if_neg (by simp [hclash_s])]
    unfold study_ensure_index
    by_cases hidx : cs.hasUniqueIndex
    · simp [hidx, Except.map]
    · have hkeys : studyNodupKeys (cs.docs ++ [⟨cs.nextId, pid, date⟩]) = true :=
        studyNodupKeys_append hnd (by
          intro d hd
          intro hc
          exact hno d hd ⟨hc.1.symm, hc.2.symm⟩)
      simp only [Bool.not_eq_true] at hidx
      simp [hidx, hkeys, Except.map]
  · -- second study insert, skip_duplicates = true
    unfold StudyDao_insert_one mongo_insert_study
    have hclash1 : studyKeyClash
        ⟨cs.docs ++ [⟨cs.nextId, pid, date⟩], cs.nextId + 1, true⟩ pid date
        = true := by
      unfold studyKeyClash
      rw [List.any_append]
      simp
    rw [if_pos rfl, if_pos (by simp [hclash1])]
    unfold study_find_one
    rw [List.find?_append, List.find?_eq_none.mpr
      (by intro d hd; simpa using hno d hd)]
    simp [study_ensure_index, Except.map]
  · -- exactly one matching study document
    rw [List.filter_append,
      List.filter_eq_nil_iff.mpr (by intro d hd; simpa using hno d hd)]
    simp
  · -- second study insert, skip_duplicates = false
    unfold StudyDao_insert_one mongo_insert_study
    have hclash1 : studyKeyClash
        ⟨cs.docs ++ [⟨cs.nextId, pid, date⟩], cs.nextId + 1, true⟩ pid date
        = true := by
      unfold studyKeyClash
      rw [List.any_append]
      simp
    rw [if_neg (by simp), if_pos (by simp [hclash1])]
  · -- first patient insert
    unfold PatientDao_insert_one patient_find_one mongo_insert_patient
    rw [if_pos rfl, List.find?_eq_none.mpr
      (by intro d hd; simpa using hpo d hd)]
    rw [if_neg (by simp [hany_p])]
    unfold patient_ensure_index
    by_cases hidx : cp.hasUniqueIndex
    · simp [hidx, Except.map]
    · have hkeys : patientNodupIds (cp.docs ++ [⟨cp.nextId, anon⟩]) = true :=
        patientNodupIds_append hpd (by
          intro d hd hc
          exact hpo d hd hc.symm)
      simp only [Bool.not_eq_true] at hidx
      simp [hidx, hkeys, Except.map]
  · -- second patient insert, skip_duplicates = true
    unfold PatientDao_insert_one patient_find_one
    rw [if_pos rfl, List.find?_append, List.find?_eq_none.mpr
      (by intro d hd; simpa using hpo d hd)]
    simp
  · -- exactly one matching patient document
    rw [List.filter_append,
      List.filter_eq_nil_iff.mpr (by intro d hd; simpa using hpo d hd)]
    simp
  · -- second patient insert, skip_duplicates = false
    unfold PatientDao_insert_one mongo_insert_patient
    have hany1 : (cp.docs ++ [(⟨cp.nextId, anon⟩ : PatientDoc)]).any
        (fun d => d.anon_id = anon) = true := by
      rw [List.any_append]
      simp
    rw [if_neg (by simp), if_pos (by simp [hany1])]

/-- Witness for C5 starting from empty collections. -/
theorem C5_insert_or_get_witness :
    ∃ id1 c1 id2 c2,
      StudyDao_insert_one ⟨[], 0, false⟩ "P1" "20200101" true = .ok (id1, c1) ∧
      StudyDao_insert_one c1 "P1" "20200101" true = .ok (id1, c1) ∧
      (c1.docs.filter (fun d => d.patientID = "P1" ∧ d.date = "20200101")).length
        = 1 ∧
      StudyDao_insert_one c1 "P1" "20200101" false = .error .duplicateKey ∧
      PatientDao_insert_one ⟨[], 0, false⟩ "anon42" true = .ok (id2, c2) ∧
      PatientDao_insert_one c2 "anon42" true = .ok (id2, c2) ∧
      (c2.docs.filter (fun d => d.anon_id = "anon42")).length = 1 ∧
      PatientDao_insert_one c2 "anon42" false = .error .duplicateKey :=
  C5_insert_or_get ⟨[], 0, false⟩ "P1" "20200101" (by decide)
    (by intro d hd; exact absurd hd (by simp)) ⟨[], 0, false⟩ "anon42"
    (by decide) (by intro d hd; exact absurd hd (by simp))

/-! ## Character-set facts for the derived paths

A patient id accepted by `int(p, 16)` cannot contain `/`, and all numeric
and sanitized segments consist of slash-free characters, so `os.path.join`
always glues with a single separator. -/

lemma hexVal?_slash : hexVal? '/' = none := by decide

lemma hexDigitsGo_no_slash : ∀ (l : List Char) (acc v : Nat),
    hexDigitsGo acc l = some v → '/' ∉ l
  | [], _, _, _ => by simp
  | c :: rest, acc, v, h => by
    by_cases hc : c = '_'
    · subst hc
      cases rest with
      | nil => simp [hexDigitsGo] at h
      | cons c2 rest2 =>
        cases hv : hexVal? c2 with
        | none => simp [hexDigitsGo, hv] at h
        | some d =>
          simp only [hexDigitsGo, hv, if_true] at h
          intro hmem
          rcases List.mem_cons.mp hmem with h1 | hmem
          · exact absurd h1 (by decide)
          rcases List.mem_cons.mp hmem with h2 | hmem
          · rw [← h2, hexVal?_slash] at hv
            exact absurd hv (by simp)
          · exact hexDigitsGo_no_slash rest2 (acc * 16 + d) v h hmem
    · cases hv : hexVal? c with
      | none =>
        rw [hexDigitsGo.eq_def] at h
        simp [hc, hv] at h
      | some d =>
        rw [hexDigitsGo.eq_def] at h
        simp only [hv, if_neg hc] at h
        intro hmem
        rcases List.mem_cons.mp hmem with h1 | hmem
        · rw [← h1, hexVal?_slash] at hv
          exact absurd hv (by simp)
        · exact hexDigitsGo_no_slash rest (acc * 16 + d) v h hmem

lemma parseHexDigits_no_slash {l : List Char} {v : Nat}
    (h : parseHexDigits l = some v) : '/' ∉ l := by
  cases l with
  | nil => simp
  | cons c rest =>
    cases hv : hexVal? c with
    | none => simp [parseHexDigits, hv] at h
    | some d =>
      simp only [parseHexDigits, hv] at h
      intro hmem
      rcases List.mem_cons.mp hmem with h1 | hmem
      · rw [← h1, hexVal?_slash] at hv
        exact absurd hv (by simp)
      · exact hexDigitsGo_no_slash rest d v h hmem

lemma parseHexAfterPrefix_no_slash {l : List Char} {v : Nat}
    (h : parseHexAfterPrefix l = some v) : '/' ∉ l := by
  cases l with
  | nil => simp
  | cons c rest =>
    by_cases hc : c = '_'
    · subst hc
      simp only [parseHexAfterPrefix, if_true] at h
      intro hmem
      rcases List.mem_cons.mp hmem with h1 | hmem
      · exact absurd h1 (by decide)
      · exact parseHexDigits_no_slash h hmem
    · simp only [parseHexAfterPrefix] at h
      rw [if_neg hc] at h
      exact parseHexDigits_no_slash h

lemma parseHexBody_no_slash {l : List Char} {v : Nat}
    (h : parseHexBody l = some v) : '/' ∉ l := by
  match l with
  | [] => simp
  | [c] =>
    rw [show parseHexBody [c] = parseHexDigits [c] from rfl] at h
    exact parseHexDigits_no_slash h
  | c1 :: c2 :: rest =>
    rw [show parseHexBody (c1 :: c2 :: rest) =
      (if c1 = '0' ∧ (c2 = 'x' ∨ c2 = 'X') then parseHexAfterPrefix rest
       else parseHexDigits (c1 :: c2 :: rest)) from rfl] at h
    by_cases hp : c1 = '0' ∧ (c2 = 'x' ∨ c2 = 'X')
    · rw [if_pos hp] at h
      intro hmem
      rcases List.mem_cons.mp hmem with h1 | hmem
      · rw [hp.1] at h1; exact absurd h1 (by decide)
      rcases List.mem_cons.mp hmem with h2 | hmem
      · rcases hp.2 with h2' | h2' <;> rw [h2'] at h2 <;>
          exact absurd h2 (by decide)
      · exact parseHexAfterPrefix_no_slash h hmem
    · rw [if_neg hp] at h
      exact parseHexDigits_no_slash h

lemma isPyWhitespace_slash : isPyWhitespace '/' = false := by decide

lemma mem_pyStrip_of_mem {s : String} {c : Char} (hc : c ∈ s.data)
    (hw : isPyWhitespace c = false) : c ∈ pyStrip s := by
  have h1 : c ∈ s.data.dropWhile isPyWhitespace := by
    have := List.takeWhile_append_dropWhile (p := isPyWhitespace) (l := s.data)
    rw [← this] at hc
    rcases List.mem_append.mp hc with h | h
    · have := List.mem_takeWhile_imp h
      rw [hw] at this
      exact absurd this (by simp)
    · exact h
  have h2 : c ∈ (s.data.dropWhile isPyWhitespace).reverse :=
    List.mem_reverse.mpr h1
  have h3 : c ∈ (s.data.dropWhile isPyWhitespace).reverse.dropWhile
      isPyWhitespace := by
    have := List.takeWhile_append_dropWhile (p := isPyWhitespace)
      (l := (s.data.dropWhile isPyWhitespace).reverse)
    rw [← this] at h2
    rcases List.mem_append.mp h2 with h | h
    · have := List.mem_takeWhile_imp h
      rw [hw] at this
      exact absurd this (by simp)
    · exact h
  exact List.mem_reverse.mpr h3

/-- `pyIntHex16` computed from the stripped character list. -/
lemma pyIntHex16_cons {s : String} {c : Char} {rest : List Char}
    (hl : pyStrip s = c :: rest) :
    pyIntHex16 s =
      (if c = '+' then (parseHexBody rest).map Int.ofNat
       else if c = '-' then (parseHexBody rest).map (fun n => -(Int.ofNat n))
       else (parseHexBody (c :: rest)).map Int.ofNat) := by
  unfold pyIntHex16; rw [hl]

/-- A string accepted by `int(·, 16)` contains no `/`. -/
lemma pyIntHex16_no_slash {s : String} {v : Int}
    (h : pyIntHex16 s = some v) : '/' ∉ s.data := by
  intro hc
  have hstrip : '/' ∈ pyStrip s := mem_pyStrip_of_mem hc isPyWhitespace_slash
  cases hl : pyStrip s with
  | nil => rw [hl] at hstrip; exact absurd hstrip (by simp)
  | cons c rest =>
    rw [pyIntHex16_cons hl] at h
    rw [hl] at hstrip
    by_cases hplus : c = '+'
    · rw [if_pos hplus] at h
      rcases Option.map_eq_some'.mp h with ⟨n, hn, _⟩
      rcases List.mem_cons.mp hstrip with h1 | h1
      · rw [hplus] at h1; exact absurd h1 (by decide)
      · exact parseHexBody_no_slash hn h1
    · rw [if_neg hplus] at h
      by_cases hminus : c = '-'
      · rw [if_pos hminus] at h
        rcases Option.map_eq_some'.mp h with ⟨n, hn, _⟩
        rcases List.mem_cons.mp hstrip with h1 | h1
        · rw [hminus] at h1; exact absurd h1 (by decide)
        · exact parseHexBody_no_slash hn h1
      · rw [if_neg hminus] at h
        rcases Option.map_eq_some'.mp h with ⟨n, hn, _⟩
        exact parseHexBody_no_slash hn hstrip

lemma digitChar10_ne_slash (d : Nat) : digitChar10 d ≠ '/' := by
  unfold digitChar10
  split <;> decide

lemma natDecAux_no_slash : ∀ (fuel n : Nat), '/' ∉ natDecAux fuel n
  | 0, _ => by simp [natDecAux]
  | fuel + 1, n => by
    unfold natDecAux
    by_cases hn : n < 10
    · rw [if_pos hn]
      intro hmem
      rcases List.mem_singleton.mp hmem with h
      exact digitChar10_ne_slash n h.symm
    · rw [if_neg hn]
      intro hmem
      rcases List.mem_append.mp hmem with h | h
      · exact natDecAux_no_slash fuel (n / 10) h
      · rcases List.mem_singleton.mp h with h1
        exact digitChar10_ne_slash (n % 10) h1.symm

lemma natDecAux_ne_nil (fuel n : Nat) : natDecAux (fuel + 1) n ≠ [] := by
  unfold natDecAux
  by_cases hn : n < 10
  · rw [if_pos hn]; simp
  · rw [if_neg hn]; simp

lemma natDec_no_slash {n : Nat} : '/' ∉ (natDec n).data := natDecAux_no_slash _ n

lemma natDec_ne_nil (n : Nat) : (natDec n).data ≠ [] := natDecAux_ne_nil n n

lemma pad2_no_slash {n : Nat} : '/' ∉ (pad2 n).data := by
  unfold pad2
  by_cases hn : n < 10
  · rw [if_pos hn]
    intro hmem
    rcases List.mem_append.mp hmem with h | h
    · rcases List.mem_singleton.mp h with h1
      exact absurd h1 (by decide)
    · exact natDec_no_slash h
  · rw [if_neg hn]
    exact natDec_no_slash

lemma pad2_ne_nil (n : Nat) : (pad2 n).data ≠ [] := by
  unfold pad2
  by_cases hn : n < 10
  · rw [if_pos hn]
    simp
  · rw [if_neg hn]
    exact natDec_ne_nil n

lemma sanitize_no_slash {s : String} : '/' ∉ (sanitizeDescription s).data := by
  unfold sanitizeDescription
  intro hmem
  rcases List.mem_map.mp hmem with ⟨c, _, hc⟩
  by_cases ha : c.isAlphanum
  · rw [if_pos ha] at hc
    subst hc
    exact absurd ha (by decide)
  · rw [if_neg ha] at hc
    exact absurd hc (by decide)

lemma opt_ne_empty (v : Option String) : (opt v "UNK").data ≠ [] := by
  cases v with
  | none => decide
  | some s =>
    by_cases hs : s = ""
    · subst hs; decide
    · have hv : opt (some s) "UNK" = s := by
        show (if s = "" then "UNK" else s) = s
        rw [if_neg hs]
      rw [hv]
      intro h
      apply hs
      cases s
      cases h
      rfl

/-! ## String gluing facts for `os.path.join` -/

lemma sdata_append (a b : String) : (a ++ b).data = a.data ++ b.data := by
  cases a; cases b; rfl

lemma str_ext {a b : String} (h : a.data = b.data) : a = b := by
  cases a; cases b; cases h; rfl

lemma mem_of_getLast?_eq_some {α : Type _} {l : List α} {a : α}
    (h : l.getLast? = some a) : a ∈ l := by
  have hmem : a ∈ l.getLast? := by rw [h]; rfl
  rcases List.mem_getLast?_eq_getLast hmem with ⟨hne, heq⟩
  rw [heq]
  exact List.getLast_mem hne

lemma head?_ne_of_not_mem {α : Type _} {l : List α} {a : α} (h : a ∉ l) :
    l.head? ≠ some a := fun hc => h (head?_mem hc)

lemma getLast?_ne_of_not_mem {α : Type _} {l : List α} {a : α} (h : a ∉ l) :
    l.getLast? ≠ some a := fun hc => h (mem_of_getLast?_eq_some hc)

lemma head?_append_left {α : Type _} {l₁ l₂ : List α} (h : l₁ ≠ []) :
    (l₁ ++ l₂).head? = l₁.head? := by
  cases l₁ with
  | nil => exact absurd rfl h
  | cons a t => rfl

/-- `os.path.join(a, b)` glues with exactly one `/` when `a` is non-empty,
`a` does not end with `/`, and `b` does not start with `/`. -/
lemma ospjoin_eq {a b : String} (ha : a.data ≠ [])
    (hlast : a.data.getLast? ≠ some '/') (hb : b.data.head? ≠ some '/') :
    ospjoin a b = a ++ "/" ++ b := by
  unfold ospjoin
  rw [if_neg hb, if_neg (by rintro (h | h); exacts [ha h, hlast h])]

lemma sapp_ne_nil_left {a b : String} (h : a.data ≠ []) : (a ++ b).data ≠ [] := by
  rw [sdata_append]
  intro hc
  exact h (List.append_eq_nil.mp hc).1

lemma sapp_ne_nil_right {a b : String} (h : b.data ≠ []) : (a ++ b).data ≠ [] := by
  rw [sdata_append]
  intro hc
  exact h (List.append_eq_nil.mp hc).2

lemma shead_append {a b : String} (h : a.data ≠ []) :
    (a ++ b).data.head? = a.data.head? := by
  rw [sdata_append]
  exact head?_append_left h

lemma slast_append {a b : String} (h : b.data ≠ []) :
    (a ++ b).data.getLast? = b.data.getLast? := by
  rw [sdata_append]
  exact List.getLast?_append_of_ne_nil _ h

lemma fmt_Ydm_ne_nil (d : PyDateTime) : (fmt_Ydm d).data ≠ [] := by
  unfold fmt_Ydm
  exact sapp_ne_nil_right (pad2_ne_nil _)

lemma fmt_Ydm_last (d : PyDateTime) :
    (fmt_Ydm d).data.getLast? ≠ some '/' := by
  unfold fmt_Ydm
  rw [slast_append (pad2_ne_nil _)]
  exact getLast?_ne_of_not_mem pad2_no_slash

lemma sanitize_ne_nil {s : String} (h : s.data ≠ []) :
    (sanitizeDescription s).data ≠ [] := by
  unfold sanitizeDescription
  intro hc
  exact h (List.map_eq_nil_iff.mp hc)

/-- Shape of a successful `get_patient_path` result: non-empty, not ending
in `/`, and equal to the spec's patient segment. -/
lemma get_patient_path_ok_shape {pid : Option String} {pp : String}
    (hpp : get_patient_path pid = .ok pp) :
    pp.data ≠ [] ∧ pp.data.getLast? ≠ some '/' ∧
    pp = specPatientSeg pid := by
  cases pid with
  | none =>
    simp only [get_patient_path, Except.ok.injEq] at hpp
    subst hpp
    exact ⟨by decide, by decide, rfl⟩
  | some p =>
    simp only [get_patient_path] at hpp
    by_cases hlen : p.length = 64
    · rw [if_pos hlen] at hpp
      cases hhex : pyIntHex16 p with
      | none => simp [hhex] at hpp
      | some v =>
        simp only [hhex] at hpp
        by_cases hv0 : v = 0
        · rw [if_pos hv0] at hpp; exact absurd hpp (by simp)
        · rw [if_neg hv0] at hpp
          have hnos : '/' ∉ p.data := pyIntHex16_no_slash hhex
          have hplen : p.data.length = 64 := hlen
          have hd1 : (strSlice p 0 3).data = p.data.take 3 := by
            simp [strSlice]
          have hd2 : (strSlice p 3 6).data = (p.data.drop 3).take 3 := by
            norm_num [strSlice]
          have hd3 : (strSlice p 6 24).data = (p.data.drop 6).take 18 := by
            norm_num [strSlice]
          have hlen1 : (strSlice p 0 3).data.length = 3 := by
            rw [hd1, List.length_take, hplen]
            decide
          have hlen2 : (strSlice p 3 6).data.length = 3 := by
            rw [hd2, List.length_take, List.length_drop, hplen]
            decide
          have hlen3 : (strSlice p 6 24).data.length = 18 := by
            rw [hd3, List.length_take, List.length_drop, hplen]
            decide
          have hne1 : (strSlice p 0 3).data ≠ [] := by
            intro h; rw [h] at hlen1; exact absurd hlen1 (by decide)
          have hne2 : (strSlice p 3 6).data ≠ [] := by
            intro h; rw [h] at hlen2; exact absurd hlen2 (by decide)
          have hne3 : (strSlice p 6 24).data ≠ [] := by
            intro h; rw [h] at hlen3; exact absurd hlen3 (by decide)
          have hns1 : '/' ∉ (strSlice p 0 3).data := by
            rw [hd1]; intro h; exact hnos (List.mem_of_mem_take h)
          have hns2 : '/' ∉ (strSlice p 3 6).data := by
            rw [hd2]; intro h
            exact hnos (List.mem_of_mem_drop (List.mem_of_mem_take h))
          have hns3 : '/' ∉ (strSlice p 6 24).data := by
            rw [hd3]; intro h
            exact hnos (List.mem_of_mem_drop (List.mem_of_mem_take h))
          have hj1 : ospjoin (strSlice p 0 3) (strSlice p 3 6) =
              strSlice p 0 3 ++ "/" ++ strSlice p 3 6 :=
            ospjoin_eq hne1 (getLast?_ne_of_not_mem hns1)
              (head?_ne_of_not_mem hns2)
          have hj2 : ospjoin (strSlice p 0 3 ++ "/" ++ strSlice p 3 6)
              (strSlice p 6 24) =
              strSlice p 0 3 ++ "/" ++ strSlice p 3 6 ++ "/" ++
                strSlice p 6 24 :=
            ospjoin_eq (sapp_ne_nil_right hne2)
              (by rw [slast_append hne2]; exact getLast?_ne_of_not_mem hns2)
              (head?_ne_of_not_mem hns3)
          rw [hj1, hj2] at hpp
          have hppe : pp = strSlice p 0 3 ++ "/" ++ strSlice p 3 6 ++ "/" ++
              strSlice p 6 24 := (Except.ok.inj hpp).symm
          refine ⟨?_, ?_, hppe⟩
          · rw [hppe]; exact sapp_ne_nil_right hne3
          · rw [hppe, slast_append hne3]
            exact getLast?_ne_of_not_mem hns3
    · rw [if_neg hlen] at hpp
      exact absurd hpp (by simp)

/-- C7 as amended: whenever `get_instance_path` succeeds (both date-time
strings parse, `SOPInstanceUID` is present and does not begin with `/`),
the produced path has exactly the format stated by the specification,
including all fallback rules. -/
theorem C7_instance_path_format (ds : Dataset) (sdt rdt : Option PyDateTime)
    (uid path : String)
    (h1 : parse_DA_TM_as_datetime (opt ds.StudyDate "00000000")
        (opt ds.StudyTime "000000") = .ok sdt)
    (h2 : parse_DA_TM_as_datetime (opt ds.SeriesDate "00000000")
        (opt ds.SeriesTime "000000") = .ok rdt)
    (h3 : ds.SOPInstanceUID = some uid)
    (h4 : uid.data.head? ≠ some '/')
    (h5 : get_instance_path ds = .ok path) :
    path = specInstancePath ds.PatientID sdt rdt ds.SeriesNumber
      (opt ds.Modality "UNK") (opt ds.SeriesDescription "UNK") uid := by
  have hser_eq : get_series_path ds =
      (match get_study_path ds.PatientID sdt with
       | .error e => (Except.error e : Except PathError String)
       | .ok sp => .ok (ospjoin sp ("series_" ++ opt ds.Modality "UNK" ++ "_" ++
           seriesKeyOf rdt ds.SeriesNumber ++ "_" ++
           sanitizeDescription (opt ds.SeriesDescription "UNK")))) := by
    unfold get_series_path
    rw [h1, h2]
  cases hpath_pp : get_patient_path ds.PatientID with
  | error e =>
    have hstudy : get_study_path ds.PatientID sdt = .error e := by
      unfold get_study_path
      rw [hpath_pp]
    have hser : get_series_path ds = .error e := by
      rw [hser_eq, hstudy]
    have hinst : get_instance_path ds = .error e := by
      unfold get_instance_path
      rw [h3, hser]
    rw [hinst] at h5
    exact absurd h5 (by simp)
  | ok pp =>
    obtain ⟨hppne, hpplast, hppshape⟩ := get_patient_path_ok_shape hpath_pp
    have hSne : ("study_" ++
        fmt_Ydm (sdt.getD ⟨1900, 1, 1, 0, 0, 0⟩)).data ≠ [] :=
      sapp_ne_nil_left (by decide)
    have hShead : ("study_" ++
        fmt_Ydm (sdt.getD ⟨1900, 1, 1, 0, 0, 0⟩)).data.head? ≠ some '/' := by
      rw [shead_append (by decide)]
      decide
    have hSlast : ("study_" ++
        fmt_Ydm (sdt.getD ⟨1900, 1, 1, 0, 0, 0⟩)).data.getLast?
        ≠ some '/' := by
      rw [slast_append (fmt_Ydm_ne_nil _)]
      exact fmt_Ydm_last _
    have hDne : (sanitizeDescription
        (opt ds.SeriesDescription "UNK")).data ≠ [] :=
      sanitize_ne_nil (opt_ne_empty _)
    have ne0 : ("series_" : String).data ≠ [] := by decide
    have ne1 : (("series_" : String) ++ opt ds.Modality "UNK").data ≠ [] :=
      sapp_ne_nil_left ne0
    have ne2 : (("series_" : String) ++ opt ds.Modality "UNK"
        ++ "_").data ≠ [] := sapp_ne_nil_left ne1
    have ne3 : (("series_" : String) ++ opt ds.Modality "UNK" ++ "_" ++
        seriesKeyOf rdt ds.SeriesNumber).data ≠ [] := sapp_ne_nil_left ne2
    have ne4 : (("series_" : String) ++ opt ds.Modality "UNK" ++ "_" ++
        seriesKeyOf rdt ds.SeriesNumber ++ "_").data ≠ [] := sapp_ne_nil_left ne3
    have hRhead : (("series_" : String) ++ opt ds.Modality "UNK" ++ "_" ++
        seriesKeyOf rdt ds.SeriesNumber ++ "_" ++
        sanitizeDescription (opt ds.SeriesDescription "UNK")).data.head?
        ≠ some '/' := by
      rw [shead_append ne4, shead_append ne3, shead_append ne2,
        shead_append ne1, shead_append ne0]
      decide
    have hRne : (("series_" : String) ++ opt ds.Modality "UNK" ++ "_" ++
        seriesKeyOf rdt ds.SeriesNumber ++ "_" ++
        sanitizeDescription (opt ds.SeriesDescription "UNK")).data ≠ [] :=
      sapp_ne_nil_right hDne
    have hRlast : (("series_" : String) ++ opt ds.Modality "UNK" ++ "_" ++
        seriesKeyOf rdt ds.SeriesNumber ++ "_" ++
        sanitizeDescription (opt ds.SeriesDescription "UNK")).data.getLast?
        ≠ some '/' := by
      rw [slast_append hDne]
      exact getLast?_ne_of_not_mem sanitize_no_slash
    have hstudy : get_study_path ds.PatientID sdt = .ok (ospjoin pp
        ("study_" ++ fmt_Ydm (sdt.getD ⟨1900, 1, 1, 0, 0, 0⟩))) := by
      unfold get_study_path
      rw [hpath_pp]
    have hjs : ospjoin pp
        ("study_" ++ fmt_Ydm (sdt.getD ⟨1900, 1, 1, 0, 0, 0⟩)) =
        pp ++ "/" ++ ("study_" ++ fmt_Ydm (sdt.getD ⟨1900, 1, 1, 0, 0, 0⟩)) :=
      ospjoin_eq hppne hpplast hShead
    have hser2 : get_series_path ds = .ok (ospjoin
        (pp ++ "/" ++ ("study_" ++ fmt_Ydm (sdt.getD ⟨1900, 1, 1, 0, 0, 0⟩)))
        ("series_" ++ opt ds.Modality "UNK" ++ "_" ++
          seriesKeyOf rdt ds.SeriesNumber ++ "_" ++
          sanitizeDescription (opt ds.SeriesDescription "UNK"))) := by
      rw [hser_eq, hstudy, hjs]
    have hjr : ospjoin
        (pp ++ "/" ++ ("study_" ++ fmt_Ydm (sdt.getD ⟨1900, 1, 1, 0, 0, 0⟩)))
        ("series_" ++ opt ds.Modality "UNK" ++ "_" ++
          seriesKeyOf rdt ds.SeriesNumber ++ "_" ++
          sanitizeDescription (opt ds.SeriesDescription "UNK")) =
        (pp ++ "/" ++ ("study_" ++ fmt_Ydm (sdt.getD ⟨1900, 1, 1, 0, 0, 0⟩)))
          ++ "/" ++
        ("series_" ++ opt ds.Modality "UNK" ++ "_" ++
          seriesKeyOf rdt ds.SeriesNumber ++ "_" ++
          sanitizeDescription (opt ds.SeriesDescription "UNK")) :=
      ospjoin_eq (sapp_ne_nil_right hSne)
        (by rw [slast_append hSne]; exact hSlast) hRhead
    have hinst : get_instance_path ds = .ok (ospjoin
        ((pp ++ "/" ++ ("study_" ++ fmt_Ydm (sdt.getD ⟨1900, 1, 1, 0, 0, 0⟩)))
          ++ "/" ++
         ("series_" ++ opt ds.Modality "UNK" ++ "_" ++
           seriesKeyOf rdt ds.SeriesNumber ++ "_" ++
           sanitizeDescription (opt ds.SeriesDescription "UNK")))
        (uid ++ ".dcm")) := by
      unfold get_instance_path
      rw [h3, hser2, hjr]
    have hdcmhead : (uid ++ ".dcm").data.head? ≠ some '/' := by
      cases hu : uid.data with
      | nil =>
        rw [sdata_append, hu]
        decide
      | cons c t =>
        rw [sdata_append, hu, head?_append_left (List.cons_ne_nil c t)]
        rw [hu] at h4
        exact h4
    have hji : ospjoin
        ((pp ++ "/" ++ ("study_" ++ fmt_Ydm (sdt.getD ⟨1900, 1, 1, 0, 0, 0⟩)))
          ++ "/" ++
         ("series_" ++ opt ds.Modality "UNK" ++ "_" ++
           seriesKeyOf rdt ds.SeriesNumber ++ "_" ++
           sanitizeDescription (opt ds.SeriesDescription "UNK")))
        (uid ++ ".dcm") =
        ((pp ++ "/" ++ ("study_" ++ fmt_Ydm (sdt.getD ⟨1900, 1, 1, 0, 0, 0⟩)))
          ++ "/" ++
         ("series_" ++ opt ds.Modality "UNK" ++ "_" ++
           seriesKeyOf rdt ds.SeriesNumber ++ "_" ++
           sanitizeDescription (opt ds.SeriesDescription "UNK")))
          ++ "/" ++ (uid ++ ".dcm") :=
      ospjoin_eq (sapp_ne_nil_right hRne)
        (by rw [slast_append hRne]; exact hRlast) hdcmhead
    rw [hinst, hji] at h5
    have hpath : path =
        ((pp ++ "/" ++ ("study_" ++ fmt_Ydm (sdt.getD ⟨1900, 1, 1, 0, 0, 0⟩)))
          ++ "/" ++
         ("series_" ++ opt ds.Modality "UNK" ++ "_" ++
           seriesKeyOf rdt ds.SeriesNumber ++ "_" ++
           sanitizeDescription (opt ds.SeriesDescription "UNK")))
          ++ "/" ++ (uid ++ ".dcm") := (Except.ok.inj h5).symm
    have hkeyeq : seriesKeyOf rdt ds.SeriesNumber =
        specSeriesKey rdt ds.SeriesNumber := by
      cases rdt with
      | none => cases ds.SeriesNumber <;> rfl
      | some dt => rfl
    rw [hpath, hppshape]
    unfold specInstancePath
    rw [← hkeyeq]
    apply str_ext
    rw [show ("/study_" : String) = "/" ++ "study_" from rfl,
      show ("/series_" : String) = "/" ++ "series_" from rfl]
    simp only [sdata_append, List.append_assoc]

/-- A well-formed 64-character hexadecimal patient id (the one from the
repository's own test vector, padded). -/
def hexPatientId : String :=
  "e182ce29b495df648d52d1ebaaaaaaaaaaaaaaaaaaaaaaaaaaaaaaaaaaaaaaaa"

/-- A dataset matching `tests/test_filesystem.py`'s expected path, except
for the padded patient id. -/
def pathTestDs : Dataset :=
  { StudyDate := some "20130911"
    StudyTime := some "162723"
    SeriesDate := some "20130911"
    SeriesTime := some "162723"
    Modality := some "CT"
    PatientID := some hexPatientId
    SOPInstanceUID := some "1" }

/-- The same dataset with an instance UID that begins with `/`. -/
def slashUidDs : Dataset :=
  { StudyDate := some "20130911"
    StudyTime := some "162723"
    SeriesDate := some "20130911"
    SeriesTime := some "162723"
    Modality := some "CT"
    PatientID := some hexPatientId
    SOPInstanceUID := some "/x" }

/-- C7 fails as stated for an instance identifier beginning with `/`:
`os.path.join` discards the whole directory prefix for an absolute second
argument, so the derived path is `/x.dcm` and not of the claimed form. -/
theorem C7_counterexample :
    get_instance_path slashUidDs = .ok "/x.dcm" ∧
    specInstancePath (some hexPatientId) (some ⟨2013, 9, 11, 16, 27, 23⟩)
        (some ⟨2013, 9, 11, 16, 27, 23⟩) none "CT" "UNK" "/x" =
      "e18/2ce/29b495df648d52d1eb/study_20131109/series_CT_162723_UNK//x.dcm" ∧
    ("/x.dcm" : String) ≠
      "e18/2ce/29b495df648d52d1eb/study_20131109/series_CT_162723_UNK//x.dcm" :=
  ⟨by decide, by decide, by decide⟩

/-- Witness for C7 as amended, on the repository's own test vector. -/
theorem C7_instance_path_format_witness :
    get_instance_path pathTestDs =
      .ok "e18/2ce/29b495df648d52d1eb/study_20131109/series_CT_162723_UNK/1.dcm" ∧
    ("e18/2ce/29b495df648d52d1eb/study_20131109/series_CT_162723_UNK/1.dcm"
        : String) =
      specInstancePath (some hexPatientId) (some ⟨2013, 9, 11, 16, 27, 23⟩)
        (some ⟨2013, 9, 11, 16, 27, 23⟩) none "CT" "UNK" "1" :=
  ⟨by decide,
   C7_instance_path_format pathTestDs (some ⟨2013, 9, 11, 16, 27, 23⟩)
     (some ⟨2013, 9, 11, 16, 27, 23⟩) "1"
     "e18/2ce/29b495df648d52d1eb/study_20131109/series_CT_162723_UNK/1.dcm"
     (by decide) (by decide) rfl (by decide) (by decide)⟩

/-- A 64-character input with a leading space: not a hexadecimal string,
yet accepted, because Python's `int(·, 16)` strips whitespace. -/
def malformedHexId : String :=
  " aaaaaaaaaaaaaaaaaaaaaaaaaaaaaaaaaaaaaaaaaaaaaaaaaaaaaaaaaaaaaaa"

/-- C8 is violated by the code: an id of length 64 containing a non-hex
character (a space) is silently accepted and turned into a path, because
`int(p, 16)` tolerates surrounding whitespace (likewise a sign, an `0x`
prefix and internal underscores), defeating the hex check the assertion
message announces. -/
theorem C8_malformed_id_accepted :
    malformedHexId.length = 64 ∧
    (' ' ∈ malformedHexId.data ∧ hexVal? ' ' = none) ∧
    get_patient_path (some malformedHexId) = .ok " aa/aaa/aaaaaaaaaaaaaaaaaa" :=
  ⟨by decide, ⟨by decide, by decide⟩, by decide⟩

/-- The all-zero 64-character hexadecimal id. -/
def zeroHexId : String :=
  "0000000000000000000000000000000000000000000000000000000000000000"

/-- C10: every 64-character id whose hexadecimal value is zero trips the
truthiness assertion `assert int(p, 16)` and is rejected with
`AssertionError("Non hex values in string")`; in particular the all-zero
id, although it is a well-formed hexadecimal string. -/
theorem C10_zero_id_rejected :
    (∀ p : String, p.length = 64 → pyIntHex16 p = some 0 →
      get_patient_path (some p) =
        .error (.assertionError "Non hex values in string")) ∧
    (zeroHexId.length = 64 ∧ (∀ c ∈ zeroHexId.data, (hexVal? c).isSome) ∧
      get_patient_path (some zeroHexId) =
        .error (.assertionError "Non hex values in string")) := by
  constructor
  · intro p h1 h2
    simp [get_patient_path, h1, h2]
  · exact ⟨by decide, by decide, by decide⟩

/-- Witness for C10 at the all-zero id. -/
theorem C10_zero_id_rejected_witness :
    get_patient_path (some zeroHexId) =
      .error (.assertionError "Non hex values in string") :=
  C10_zero_id_rejected.1 zeroHexId (by decide) (by decide)

end CobraDb
